import Mathlib

/-!
Shallow embedding of the data_browser repository core: the Table data model
(src/libs/data/src/data/models/tables.py), the transform framework
(src/libs/data/src/data/transforms/base.py), the formatting transforms
(src/libs/data/src/data/transforms/formatting.py), the analytical transforms
(src/libs/data/src/data/transforms/standard.py) and the table cache
(src/apps/pipelines/src/pipelines/cache.py).

A polars DataFrame is modelled as a list of named, typed columns of values.
Machine floats only occur as quantile break fractions, thresholds and cache
timestamps; they are modelled as exact fractions (no comparison in any
verified statement is within rounding distance of a machine-float
breakpoint).  Fallible operations return Except String.
Where polars leaves an order unspecified (group_by without maintain_order) the
model fixes first-appearance order; no verified statement depends on it.
-/

namespace DataBrowser

/-- Data types a column can carry.  Mirrors the polars dtypes the repository
manipulates: String, Categorical, Int64, Float64, Boolean, Datetime. -/
inductive DType where
  | string
  | cat
  | int64
  | float64
  | boolean
  | datetime
deriving DecidableEq, Repr

/-- A composite datetime value, as produced by pl.datetime(year, month, day,
hour, minute, second) from the fused part columns. -/
structure DateTimeVal where
  year : Int
  month : Int
  day : Int
  hour : Int
  minute : Int
  second : Int
deriving DecidableEq, Repr

/-- Exact model of a Python float: a fraction with positive denominator, kept
unreduced (the repository only scales, adds and compares its floats, so exact
fraction arithmetic reproduces every comparison; no verified statement
involves a comparison within rounding distance of a machine-float
breakpoint). -/
structure Frac where
  num : Int
  den : Int
deriving DecidableEq, Repr

/-- Embed an integer. -/
def Frac.ofInt (i : Int) : Frac :=
  ⟨i, 1⟩

/-- Fraction addition. -/
def Frac.add (a b : Frac) : Frac :=
  ⟨a.num * b.den + b.num * a.den, a.den * b.den⟩

/-- Fraction subtraction. -/
def Frac.sub (a b : Frac) : Frac :=
  ⟨a.num * b.den - b.num * a.den, a.den * b.den⟩

/-- Fraction multiplication. -/
def Frac.mul (a b : Frac) : Frac :=
  ⟨a.num * b.num, a.den * b.den⟩

/-- Fraction order (sound for positive denominators). -/
def Frac.le (a b : Frac) : Bool :=
  decide (a.num * b.den ≤ b.num * a.den)

/-- Strict fraction order (sound for positive denominators). -/
def Frac.lt (a b : Frac) : Bool :=
  decide (a.num * b.den < b.num * a.den)

/-- Floor of a fraction (sound for positive denominators). -/
def Frac.floor (a : Frac) : Int :=
  a.num.fdiv a.den

/-- The rational number a fraction denotes. -/
def Frac.toRat (a : Frac) : ℚ :=
  (a.num : ℚ) / (a.den : ℚ)

/-- A cell value.  Float64 cells are modelled as exact fractions. -/
inductive Val where
  | null
  | str (s : String)
  | int (i : Int)
  | float (x : Frac)
  | bool (b : Bool)
  | dt (d : DateTimeVal)
deriving DecidableEq, Repr

/-- A named, typed column of cell values. -/
structure Column where
  name : String
  dtype : DType
  values : List Val
deriving DecidableEq, Repr

/-- A DataFrame: an ordered list of columns.  Well-formed frames have unique
column names and equal column lengths (polars enforces both at construction;
the looser Lean type takes these as hypotheses where a proof needs them). -/
structure Frame where
  cols : List Column
deriving DecidableEq, Repr

/-- Source of a table (models the TableSource enum in tables.py). -/
inductive TableSource where
  | csv
  | database
  | api
  | file
  | stream
  | other
deriving DecidableEq, Repr

/-- The Table entity of tables.py: a named, sourced DataFrame. -/
structure Table where
  name : String
  source : TableSource
  data : Frame
deriving DecidableEq, Repr

/-- Height of a frame (polars DataFrame.height): length of the first column,
0 for a frame with no columns. -/
def Frame.height (f : Frame) : Nat :=
  match f.cols with
  | [] => 0
  | c :: _ => c.values.length

/-- polars DataFrame.is_empty: true when the height is zero (a frame with zero
columns also has height zero). -/
def Frame.isEmpty (f : Frame) : Bool :=
  f.height = 0

/-- Column names in frame order (polars DataFrame.columns). -/
def Frame.colNames (f : Frame) : List String :=
  f.cols.map Column.name

/-- First column with the given name, if any. -/
def Frame.getCol (f : Frame) (n : String) : Option Column :=
  f.cols.find? (fun c => c.name = n)

/-- Cell of column n at row i (null when out of range or column missing). -/
def Frame.cell (f : Frame) (n : String) (i : Nat) : Val :=
  match f.getCol n with
  | none => Val.null
  | some c => c.values.getD i Val.null

/-- The tuple of values of the given columns at row i. -/
def Frame.rowKey (f : Frame) (names : List String) (i : Nat) : List Val :=
  names.map (fun n => f.cell n i)

/-- Names of the columns having the given dtype, in frame order
(expansion of pl.col(dtype)). -/
def Frame.colsOfDType (f : Frame) (d : DType) : List String :=
  (f.cols.filter (fun c => c.dtype = d)).map Column.name

/-- Whether a list of strings contains a duplicate. -/
def hasDupNames : List String → Bool
  | [] => false
  | x :: xs => x ∈ xs || hasDupNames xs

/-- polars DataFrame.select over a list of column names: fails when a name is
missing or when the selection would produce duplicate output names. -/
def Frame.select (f : Frame) (names : List String) : Except String Frame :=
  if names.all (fun n => (f.getCol n).isSome) then
    if hasDupNames names then Except.error "Duplicate column names in selection"
    else Except.ok ⟨names.filterMap f.getCol⟩
  else Except.error "Column not found in frame"

/-- polars with_columns of a single aliased expression result: replaces the
column of that name in place, or appends it when new. -/
def Frame.withColumn (f : Frame) (c : Column) : Frame :=
  if f.cols.any (fun c0 => c0.name = c.name) then
    ⟨f.cols.map (fun c0 => if c0.name = c.name then c else c0)⟩
  else ⟨f.cols ++ [c]⟩

/-- polars DataFrame.drop with the default strict=True of polars 1.x: fails
when any named column is absent from the frame. -/
def Frame.drop (f : Frame) (names : List String) : Except String Frame :=
  if names.all (fun n => n ∈ f.colNames) then
    Except.ok ⟨f.cols.filter (fun c => c.name ∉ names)⟩
  else Except.error "Column not found in frame"

/-- Keep only the rows whose index satisfies p. -/
def Frame.filterIdx (f : Frame) (p : Nat → Bool) : Frame :=
  let keep := (List.range f.height).filter p
  ⟨f.cols.map (fun c => { c with values := keep.map (fun i => c.values.getD i Val.null) })⟩

/-- First-appearance deduplication (models dict-insertion order of polars
group keys under maintain_order semantics). -/
def dedupFirst {α : Type} [DecidableEq α] (xs : List α) : List α :=
  xs.foldl (fun acc x => if x ∈ acc then acc else acc ++ [x]) []

/-- Table.categorical_columns: data.select(pl.col(Categorical), pl.col(String)).columns,
so all Categorical columns in frame order followed by all String columns. -/
def Table.categoricalColumns (t : Table) : List String :=
  t.data.colsOfDType DType.cat ++ t.data.colsOfDType DType.string

/-- Table.datetime_columns. -/
def Table.datetimeColumns (t : Table) : List String :=
  t.data.colsOfDType DType.datetime

/-- Table.dimension_columns = categorical columns then datetime columns. -/
def Table.dimensionColumns (t : Table) : List String :=
  t.categoricalColumns ++ t.datetimeColumns

/-- Table.numeric_columns: data.select(pl.col(Float64), pl.col(Int64)).columns. -/
def Table.numericColumns (t : Table) : List String :=
  t.data.colsOfDType DType.float64 ++ t.data.colsOfDType DType.int64

/-- Table.validate_columns: fails unless every requested name is a column. -/
def Table.validateColumns (t : Table) (columns : List String) : Except String Unit :=
  if columns.all (fun c => c ∈ t.data.colNames) then Except.ok ()
  else Except.error "Column not found in table."

/-- Table.validate_dimensions: fails unless every requested name is a
dimension column. -/
def Table.validateDimensions (t : Table) (dimensions : List String) : Except String Unit :=
  if dimensions.all (fun c => c ∈ t.dimensionColumns) then Except.ok ()
  else Except.error "Dimension not table dimensions."

/-- Table.validate_measures: fails unless every requested name is a numeric
column. -/
def Table.validateMeasures (t : Table) (measures : List String) : Except String Unit :=
  if measures.all (fun c => c ∈ t.numericColumns) then Except.ok ()
  else Except.error "Measure not found in table."

/-- Lexicographic comparison of character lists by code point (the comparison
Python string sort and polars string sort use). -/
def charsLe : List Char → List Char → Bool
  | [], _ => true
  | _ :: _, [] => false
  | a :: as, b :: bs =>
    if a.val < b.val then true
    else if b.val < a.val then false
    else charsLe as bs

/-- String comparison by code points. -/
def strLeB (a b : String) : Bool :=
  charsLe a.toList b.toList

/-- Stable insertion into a list sorted by the boolean preorder le: the new
element goes after every existing element that is le it. -/
def insertS {α : Type} (le : α → α → Bool) (x : α) : List α → List α
  | [] => [x]
  | y :: ys => if le y x then y :: insertS le x ys else x :: y :: ys

/-- Stable insertion sort by a boolean preorder (Python sorted is stable). -/
def sortByB {α : Type} (le : α → α → Bool) (xs : List α) : List α :=
  xs.foldl (fun acc x => insertS le x acc) []

/-- Python sorted over strings. -/
def sortStrings (xs : List String) : List String :=
  sortByB strLeB xs

/-- Ordering used by polars sort on the cells the repository sorts (strings
after concatenation widening; other same-type cases for completeness, nulls
first as with the default nulls_last=False). -/
def valLe : Val → Val → Bool
  | Val.null, _ => true
  | _, Val.null => false
  | Val.str a, Val.str b => strLeB a b
  | Val.int a, Val.int b => a ≤ b
  | Val.float a, Val.float b => a.le b
  | Val.bool a, Val.bool b => !a || b
  | _, _ => true

/-- polars DataFrame.sort(column, descending=False): rows reordered by the
value of the named column; fails when the column is missing. -/
def Frame.sortByColumn (f : Frame) (n : String) : Except String Frame :=
  match f.getCol n with
  | none => Except.error "Column not found in frame"
  | some c =>
    let idxs := sortByB (fun i j => valLe (c.values.getD i Val.null) (c.values.getD j Val.null))
      (List.range f.height)
    Except.ok ⟨f.cols.map (fun col => { col with values := idxs.map (fun i => col.values.getD i Val.null) })⟩

/-- BaseTransform.__call__ as seen through values: raise the precondition
error on an empty frame, otherwise run the transform-specific apply on a deep
copy of the table (deep copying is the identity on the value of the table;
the aliasing consequence is modelled separately on an explicit heap). -/
def callT (apply : Table → Except String Table) (t : Table) : Except String Table :=
  if t.data.isEmpty then Except.error "Cannot transform empty dataframe"
  else apply t

/-- A heap of Python Table objects: object identities mapped to current
values.  Used to state the aliasing guarantee of BaseTransform.__call__. -/
abbrev Heap : Type := List (Nat × Table)

/-- Value currently held by the object r. -/
def Heap.lookup (h : Heap) (r : Nat) : Option Table :=
  ((List.find? (fun p => p.1 = r)) h).map (fun p => p.2)

/-- A reference not yet used by any object of the heap. -/
def freshRef (h : Heap) : Nat :=
  (List.foldr (fun (p : Nat × Table) m => max p.1 m) 0 h) + 1

/-- Allocate a new object holding the value t (models table.model_copy(deep=True)). -/
def Heap.alloc (h : Heap) (t : Table) : Heap × Nat :=
  (List.append h [(freshRef h, t)], freshRef h)

/-- Overwrite the value of the object r (models in-place mutation of the
fields of an existing Table object). -/
def Heap.set (h : Heap) (r : Nat) (t : Table) : Heap :=
  List.map (fun (p : Nat × Table) => if p.1 = r then (p.1, t) else p) h

/-- BaseTransform.__call__ on the object heap: look up the input object, check
the empty precondition, deep-copy the value into a fresh object, and run the
transform-specific apply against that copy (any mutation the apply performs
lands on the copy).  Returns the updated heap together with the outcome. -/
def callTransformOn (apply : Table → Except String Table) (h : Heap) (r : Nat) :
    Heap × Except String Nat :=
  match h.lookup r with
  | none => (h, Except.error "Table not found")
  | some t =>
    if t.data.isEmpty then (h, Except.error "Cannot transform empty dataframe")
    else
      let alloc := h.alloc t
      match apply t with
      | Except.error e => (alloc.1, Except.error e)
      | Except.ok t2 => (alloc.1.set alloc.2 t2, Except.ok alloc.2)

/-- Numeric view of a cell (polars arithmetic over Int64/Float64 cells). -/
def Val.toFrac : Val → Option Frac
  | Val.int i => some (Frac.ofInt i)
  | Val.float x => some x
  | _ => none

/-- Quantile of a list of numbers with the linear interpolation polars qcut
uses for its breakpoints: on the sorted values v with n elements, the
q-quantile is v[f] + frac * (v[f+1] - v[f]) where f = floor(q*(n-1)) and
frac = q*(n-1) - f.  None on an empty list. -/
def quantileLinear (xs : List Frac) (q : Frac) : Option Frac :=
  let s := sortByB Frac.le xs
  match s with
  | [] => none
  | _ :: _ =>
    let n := s.length
    let h : Frac := q.mul (Frac.ofInt ((n : Int) - 1))
    let fidx : Nat := h.floor.toNat
    let frac : Frac := h.sub (Frac.ofInt (fidx : Int))
    let v1 := s.getD fidx (Frac.ofInt 0)
    let v2 := s.getD (min (fidx + 1) (n - 1)) (Frac.ofInt 0)
    some (v1.add (frac.mul (v2.sub v1)))

/-- Bucket assignment of polars qcut with the default left_closed=False: the
value x gets label i for the interval (bp_(i-1), bp_i], boundary values
falling to the lower bucket; the last label covers (bp_last, infinity). -/
def bucketLabel : List Frac → List String → Frac → Option String
  | [], [l], _ => some l
  | bp :: bps, l :: ls, x => if x.le bp then some l else bucketLabel bps ls x
  | _, _, _ => none

/-- The qcut(breaks, labels).over(partition_by) expression: per row, the label
of the quantile bucket of the cell of the given column, with breakpoints
computed from the non-null values of the row's partition group (globally when
partition_by is empty).  Null cells yield null. -/
def Frame.qcutOver (f : Frame) (column : String) (partitionBy : List String)
    (breaks : List Frac) (labels : List String) : List Val :=
  (List.range f.height).map (fun i =>
    match (f.cell column i).toFrac with
    | none => Val.null
    | some x =>
      let key := f.rowKey partitionBy i
      let groupVals := (List.range f.height).filterMap (fun j =>
        if f.rowKey partitionBy j = key then (f.cell column j).toFrac else none)
      match breaks.mapM (quantileLinear groupVals) with
      | none => Val.null
      | some bps =>
        match bucketLabel bps labels x with
        | none => Val.null
        | some l => Val.str l)

/-- QuantileLabelTransform: the constructor-time model_validator checks (break
count and range) followed by apply: validate the measure and the partition
dimensions, re-check the partition columns (the apply body checks them a
second time with a different message), and add the bucket-label column as a
Categorical column under the alias. -/
def quantileLabelApply (partitionBy labels : List String) (breaks : List Frac)
    (column aliasName : String) (t : Table) : Except String Table :=
  if (breaks.length : Int) ≠ (labels.length : Int) - 1 then
    Except.error "The number of breaks must be one less than the number of quantile labels."
  else if ¬ (breaks.all (fun b => (Frac.ofInt 0).le b && b.le (Frac.ofInt 1))) then
    Except.error "Quantile breaks must be between 0 and 1."
  else do
    t.validateMeasures [column]
    t.validateDimensions partitionBy
    if partitionBy ≠ [] ∧ ¬ (partitionBy.all (fun c => c ∈ t.dimensionColumns)) then
      Except.error "Partition by columns not table dimensions."
    else
      let newData := t.data.withColumn
        (Column.mk aliasName DType.cat (t.data.qcutOver column partitionBy breaks labels))
      Except.ok { t with data := newData }

/-- Sum aggregation of a list of cells of a numeric column (pl.sum: nulls are
ignored, the empty sum is 0). -/
def sumVals (d : DType) (vs : List Val) : Val :=
  match d with
  | DType.int64 => Val.int (vs.foldl (fun a v =>
      match v with
      | Val.int i => a + i
      | _ => a) 0)
  | DType.float64 => Val.float (vs.foldl (fun a v =>
      match v with
      | Val.float q => a.add q
      | Val.int i => a.add (Frac.ofInt i)
      | _ => a) (Frac.ofInt 0))
  | _ => Val.null

/-- Dtype of a named column, String for a missing column. -/
def Frame.dtypeOf (f : Frame) (n : String) : DType :=
  match f.getCol n with
  | some c => c.dtype
  | none => DType.string

/-- SumTransform.apply: validate, then either group_by(group_by).agg(sums)
(group keys in first-appearance order, key columns then summed columns) or,
with no group_by, select the sums into a single row. -/
def sumApply (columns groupBy : List String) (t : Table) : Except String Table := do
  t.validateMeasures columns
  t.validateDimensions groupBy
  if groupBy.isEmpty then
    Except.ok { t with data := ⟨columns.map (fun n =>
      match t.data.getCol n with
      | some c => ⟨n, c.dtype, [sumVals c.dtype c.values]⟩
      | none => ⟨n, DType.int64, [Val.null]⟩)⟩ }
  else
    let keys := dedupFirst ((List.range t.data.height).map (t.data.rowKey groupBy))
    let keyCols : List Column := groupBy.enum.map (fun p =>
      ⟨p.2, t.data.dtypeOf p.2, keys.map (fun k => k.getD p.1 Val.null)⟩)
    let aggCols : List Column := columns.map (fun n =>
      match t.data.getCol n with
      | some c => ⟨n, c.dtype, keys.map (fun k =>
          sumVals c.dtype (((List.range t.data.height).filter
            (fun i => decide (t.data.rowKey groupBy i = k))).map
              (fun i => c.values.getD i Val.null)))⟩
      | none => ⟨n, DType.int64, keys.map (fun _ => Val.null)⟩)
    Except.ok { t with data := ⟨keyCols ++ aggCols⟩ }

/-- String form of a cell used as a pivoted column header. -/
def Val.toHeader : Val → String
  | Val.str s => s
  | Val.int i => toString i
  | Val.float q => toString q.num ++ "/" ++ toString q.den
  | Val.bool b => toString b
  | Val.null => "null"
  | Val.dt d => toString d.year ++ "-" ++ toString d.month ++ "-" ++ toString d.day

/-- Zero-padded rendering of a datetime cell as YYYY-MM-DD (dt.strftime with
the %Y-%m-%d pattern applied by PivotTransform to datetime on-columns). -/
def strftimeYMD (v : Val) : Val :=
  match v with
  | Val.dt d =>
    let pad2 := fun (i : Int) => if 0 ≤ i ∧ i < 10 then "0" ++ toString i else toString i
    let pad4 := fun (i : Int) =>
      if 0 ≤ i ∧ i < 10 then "000" ++ toString i
      else if 10 ≤ i ∧ i < 100 then "00" ++ toString i
      else if 100 ≤ i ∧ i < 1000 then "0" ++ toString i
      else toString i
    Val.str (pad4 d.year ++ "-" ++ pad2 d.month ++ "-" ++ pad2 d.day)
  | _ => Val.null

/-- PivotTransform.apply: validate index and on columns as dimensions and the
values columns as measures, reformat datetime on-columns to YYYY-MM-DD
strings, then pivot: one row per distinct index combination, one column per
distinct on combination (on-value as header; pivoting several values columns
prefixes each header with the values-column name), cells taken from the
matching row, null when no row matches.  Distinct combinations are in
first-appearance order. -/
def pivotApply (onCols indexCols valueCols : List String) (t : Table) : Except String Table := do
  t.validateDimensions (indexCols ++ onCols)
  t.validateMeasures valueCols
  let f : Frame := ⟨t.data.cols.map (fun c =>
    if c.name ∈ onCols ∧ c.dtype = DType.datetime then
      ⟨c.name, DType.string, c.values.map strftimeYMD⟩
    else c)⟩
  let n := f.height
  let idxKeys := dedupFirst ((List.range n).map (f.rowKey indexCols))
  let onKeys := dedupFirst ((List.range n).map (f.rowKey onCols))
  let idxCols2 : List Column := indexCols.enum.map (fun p =>
    ⟨p.2, f.dtypeOf p.2, idxKeys.map (fun k => k.getD p.1 Val.null)⟩)
  let header := fun (k : List Val) (vname : String) =>
    let base := match k with
      | [v] => v.toHeader
      | _ => "\x7b" ++ String.intercalate "," (k.map Val.toHeader) ++ "\x7d"
    if valueCols.length = 1 then base else vname ++ "_" ++ base
  let pivCols : List Column := List.flatten (onKeys.map (fun k => valueCols.map (fun v =>
    ⟨header k v, f.dtypeOf v, idxKeys.map (fun ik =>
      match (List.range n).find? (fun i => decide (f.rowKey indexCols i = ik ∧ f.rowKey onCols i = k)) with
      | some i => f.cell v i
      | none => Val.null)⟩)))
  Except.ok { t with data := ⟨idxCols2 ++ pivCols⟩ }

/-- FilterTransform.apply: keep the rows whose cell in the named column is a
member of the filter values (null cells never match, as with pl.is_in). -/
def filterApply (column : String) (values : List Val) (t : Table) : Except String Table :=
  match t.data.getCol column with
  | none => Except.error "Column not found in frame"
  | some c => Except.ok { t with data := t.data.filterIdx (fun i =>
      match c.values.getD i Val.null with
      | Val.null => false
      | v => decide (v ∈ values)) }

/-- Supertype resolution of pl.concat how=diagonal_relaxed for the dtypes the
repository produces: equal dtypes stay, Categorical widens with String to
String, Int64 widens with Float64 to Float64; anything else is incompatible. -/
def unifyDType (a b : DType) : Option DType :=
  if a = b then some a
  else match a, b with
    | DType.cat, DType.string => some DType.string
    | DType.string, DType.cat => some DType.string
    | DType.int64, DType.float64 => some DType.float64
    | DType.float64, DType.int64 => some DType.float64
    | _, _ => none

/-- Value coercion accompanying dtype widening. -/
def coerceVal (d : DType) (v : Val) : Val :=
  match d, v with
  | DType.float64, Val.int i => Val.float (Frac.ofInt i)
  | _, _ => v

/-- pl.concat([f, g], how=diagonal_relaxed): columns of f (widened against the
same-named column of g when both exist), then the columns only g has; each
side null-filled where it lacks a column; rows of f before rows of g. -/
def Frame.vconcatRelaxed (f g : Frame) : Except String Frame := do
  let leftCols ← f.cols.mapM (fun c =>
    match g.getCol c.name with
    | none => Except.ok (Column.mk c.name c.dtype (c.values ++ List.replicate g.height Val.null))
    | some c2 =>
      match unifyDType c.dtype c2.dtype with
      | none => Except.error "Cannot concatenate frames with incompatible dtypes"
      | some d => Except.ok (Column.mk c.name d
          ((c.values.map (coerceVal d)) ++ (c2.values.map (coerceVal d)))))
  let rightCols := (g.cols.filter (fun c => c.name ∉ f.colNames)).map (fun c =>
    Column.mk c.name c.dtype (List.replicate f.height Val.null ++ c.values))
  Except.ok ⟨leftCols ++ rightCols⟩

/-- VerticalConcatenateTransform.apply with the configured other table. -/
def vconcatApply (other : Table) (t : Table) : Except String Table :=
  match t.data.vconcatRelaxed other.data with
  | Except.error e => Except.error e
  | Except.ok d => Except.ok { t with data := d }

/-- One (break, label) iteration of ConcentrationAnalysisTransform.apply: on a
deep copy of the input, quantile-label into Below and the label, filter to the
label, sum the measure grouped by the by-columns and the label column, pivot
the measure by the by-columns with the label column as index.  Every stage
goes through the shared wrapper. -/
def concBreakPipeline (onCol : String) (byCols : List String) (outputColumn : String)
    (tbl : Table) (p : Frac × String) : Except String Table := do
  let t1 ← callT (quantileLabelApply byCols ["Below", p.2] [p.1] onCol outputColumn) tbl
  let t2 ← callT (filterApply outputColumn [Val.str p.2]) t1
  let t3 ← callT (sumApply [onCol] (byCols ++ [outputColumn])) t2
  callT (pivotApply byCols [outputColumn] [onCol]) t3

/-- The loop of ConcentrationAnalysisTransform.apply over the zipped
(break, label) pairs: one table per pair, the first failure propagating. -/
def concBreakList (onCol : String) (byCols : List String) (outputColumn : String)
    (tbl : Table) : List (Frac × String) → Except String (List Table)
  | [] => Except.ok []
  | p :: ps => do
    let t ← concBreakPipeline onCol byCols outputColumn tbl p
    let ts ← concBreakList onCol byCols outputColumn tbl ps
    Except.ok (t :: ts)

/-- The per-break tables of ConcentrationAnalysisTransform.apply, one for each
positional (break, label) pair of zip(breaks, labels). -/
def concBreakTables (onCol : String) (byCols : List String) (outputColumn : String)
    (tbl : Table) (breaks : List Frac) (labels : List String) : Except String (List Table) :=
  concBreakList onCol byCols outputColumn tbl (breaks.zip labels)

/-- ConcentrationAnalysisTransform.apply: validate the measure and the by
dimensions, build the per-break tables, return the input unchanged when there
are none; otherwise append the pivoted grand-total row (sum by the by-columns,
tagged Total in the output column), vertically concatenate everything onto the
first per-break table, and sort ascending by the output column. -/
def concentrationApply (onCol : String) (byCols : List String)
    (labels : List String) (breaks : List Frac) (outputColumn : String)
    (t : Table) : Except String Table := do
  t.validateMeasures [onCol]
  t.validateDimensions byCols
  let tmpTables ← concBreakTables onCol byCols outputColumn t breaks labels
  match tmpTables with
  | [] => Except.ok t
  | t0 :: rest => do
    let st1 ← callT (sumApply [onCol] byCols) t
    let totalData := st1.data.withColumn
      (Column.mk outputColumn DType.string (List.replicate st1.data.height (Val.str "Total")))
    let st2 := { st1 with data := totalData }
    let sumTotal ← callT (pivotApply byCols [outputColumn] [onCol]) st2
    let folded ← (rest ++ [sumTotal]).foldlM (fun acc other => callT (vconcatApply other) acc) t0
    let sorted ← folded.data.sortByColumn outputColumn
    Except.ok { folded with data := sorted }

/-- Semantic data types of schemas.py. -/
inductive DataTypeEnum where
  | integer
  | float
  | boolean
  | datetime
  | string
deriving DecidableEq, Repr

/-- Datetime component of schemas.py. -/
inductive DatetimePart where
  | year
  | month
  | day
  | hour
  | minute
  | second
deriving DecidableEq, Repr

/-- PartialDatetimeSchema of schemas.py. -/
structure PartialDatetimeSchema where
  part : DatetimePart
  parentColumnName : String
deriving DecidableEq, Repr

/-- ColumnSchema of schemas.py. -/
structure ColumnSchema where
  name : String
  dataType : DataTypeEnum
  regexCleaningPattern : String
  datetimeFormat : Option String
  partialDatetimeSchema : Option PartialDatetimeSchema
deriving DecidableEq, Repr

/-- Whether one item of a regex character class matches a character.  Covers
the fragment the repository feeds to str.replace_all: literal characters,
ranges, and the backslash escapes d, w and s. -/
def classItemsMatch : List Char → Char → Bool
  | [], _ => false
  | '\\' :: 'd' :: rest, c => c.isDigit || classItemsMatch rest c
  | '\\' :: 'w' :: rest, c => (c.isAlphanum || c = '_') || classItemsMatch rest c
  | '\\' :: 's' :: rest, c => c.isWhitespace || classItemsMatch rest c
  | '\\' :: x :: rest, c => c = x || classItemsMatch rest c
  | a :: '-' :: b :: rest, c => (a ≤ c ∧ c ≤ b : Bool) || classItemsMatch rest c
  | a :: rest, c => c = a || classItemsMatch rest c

/-- Whether a character-class pattern body (text between the brackets, with an
optional leading caret for negation) matches a character. -/
def classMatches (inner : List Char) (c : Char) : Bool :=
  match inner with
  | '^' :: rest => ! classItemsMatch rest c
  | rest => classItemsMatch rest c

/-- Removal of every leftmost non-overlapping occurrence of a non-empty
literal pattern, with explicit fuel (one unit per consumed character). -/
def removeSubstr (pat : List Char) : Nat → List Char → List Char
  | 0, _ => []
  | _ + 1, [] => []
  | fuel + 1, c :: rest =>
    if pat.isPrefixOf (c :: rest) then removeSubstr pat fuel ((c :: rest).drop pat.length)
    else c :: removeSubstr pat fuel rest

/-- Whitespace strip of both ends of a string (str.strip_chars with its
default character set). -/
def strTrim (s : String) : String :=
  String.mk (((s.toList.dropWhile Char.isWhitespace).reverse.dropWhile Char.isWhitespace).reverse)

/-- ASCII lower-casing (str.to_lowercase on the tokens the repository maps). -/
def strLower (s : String) : String :=
  String.mk (s.toList.map Char.toLower)

/-- str.replace_all(pattern, empty) for the cleaning patterns the repository
uses: a character-class pattern removes every matching character; the empty
pattern removes nothing; any other pattern is removed as a literal substring. -/
def replaceAllMatches (pattern : String) (s : String) : String :=
  match pattern.toList with
  | [] => s
  | '[' :: rest =>
    let inner := if rest.getLast? = some ']' then rest.dropLast else rest
    String.mk (s.toList.filter (fun c => ! classMatches inner c))
  | _ => String.mk (removeSubstr pattern.toList s.toList.length s.toList)

/-- Natural number denoted by a list of decimal digits. -/
def digitsToNat (ds : List Char) : Nat :=
  ds.foldl (fun a c => a * 10 + (c.toNat - '0'.toNat)) 0

/-- Strict string-to-integer parse (polars cast Utf8 to Int64): an optional
minus sign followed by at least one digit. -/
def parseIntStr (s : String) : Option Int :=
  match s.toList with
  | [] => none
  | '-' :: ds =>
    if ds ≠ [] ∧ ds.all Char.isDigit then some (-(digitsToNat ds : Int)) else none
  | ds =>
    if ds.all Char.isDigit then some (digitsToNat ds : Int) else none

/-- Unsigned decimal with optional fractional part. -/
def parseFracChars (cs : List Char) : Option Frac :=
  let intPart := cs.takeWhile Char.isDigit
  match cs.drop intPart.length with
  | [] => if intPart ≠ [] then some (Frac.ofInt (digitsToNat intPart : Int)) else none
  | '.' :: frac =>
    if (intPart ≠ [] ∨ frac ≠ []) ∧ frac.all Char.isDigit then
      some ⟨(digitsToNat intPart : Int) * ((10 : Int) ^ frac.length) + (digitsToNat frac : Int),
        (10 : Int) ^ frac.length⟩
    else none
  | _ => none

/-- Strict string-to-float parse (polars cast Utf8 to Float64), modelled
exactly over fractions. -/
def parseFracStr (s : String) : Option Frac :=
  match s.toList with
  | '-' :: rest => (parseFracChars rest).map (fun f => ⟨-f.num, f.den⟩)
  | rest => parseFracChars rest

/-- The strftime directives of a format string (the characters following each
percent sign). -/
def fmtDirectives (fmt : String) : List Char :=
  let rec go : List Char → List Char
    | [] => []
    | '%' :: d :: rest => d :: go rest
    | _ :: rest => go rest
  go fmt.toList

/-- Maximal runs of digits of a string, as integers. -/
def digitRuns (s : String) : List Int :=
  let step := fun (acc : List Int × Option Nat) (c : Char) =>
    if c.isDigit then (acc.1, some ((acc.2.getD 0) * 10 + (c.toNat - '0'.toNat)))
    else match acc.2 with
      | none => (acc.1, none)
      | some n => (acc.1 ++ [(n : Int)], none)
  let r := s.toList.foldl step ([], none)
  match r.2 with
  | none => r.1
  | some n => r.1 ++ [(n : Int)]

/-- str.to_datetime(format) for the all-numeric formats the repository uses:
the digit runs of the value are bound to the format directives in order;
any mismatch in count fails the parse. -/
def parseDatetimeStr (fmt : String) (s : String) : Option DateTimeVal :=
  let ds := fmtDirectives fmt
  let ns := digitRuns s
  if ds.length = ns.length then
    some ((ds.zip ns).foldl (fun acc p =>
      match p.1 with
      | 'Y' => { acc with year := p.2 }
      | 'm' => { acc with month := p.2 }
      | 'd' => { acc with day := p.2 }
      | 'H' => { acc with hour := p.2 }
      | 'M' => { acc with minute := p.2 }
      | 'S' => { acc with second := p.2 }
      | _ => acc) ⟨1, 1, 1, 0, 0, 0⟩)
  else none

/-- The select(pl.all().str.strip_chars()) prelude of ColumnSchemaTransform:
whitespace-strip every column; the str namespace fails on a non-String
column. -/
def Frame.stripAllStrings (f : Frame) : Except String Frame :=
  if f.cols.all (fun c => c.dtype = DType.string) then
    Except.ok ⟨f.cols.map (fun c => { c with values := c.values.map (fun v =>
      match v with
      | Val.str s => Val.str (strTrim s)
      | v => v) })⟩
  else Except.error "str namespace used on a non-string column"

/-- The string branch of the parse expression: remove the characters the
cleaning pattern matches. -/
def castStringVals (pattern : String) (vs : List Val) : List Val :=
  vs.map (fun v =>
    match v with
    | Val.str s => Val.str (replaceAllMatches pattern s)
    | v => v)

/-- The integer branch of the parse expression: clean, map the empty string
and a lone minus sign to null, then strict-cast to Int64. -/
def castIntVals (pattern : String) (vs : List Val) : Except String (List Val) :=
  vs.mapM (fun v =>
    match v with
    | Val.null => Except.ok Val.null
    | Val.str s =>
      let s2 := replaceAllMatches pattern s
      if s2 = "" ∨ s2 = "-" then Except.ok Val.null
      else match parseIntStr s2 with
        | some i => Except.ok (Val.int i)
        | none => Except.error "Could not cast to Int64"
    | _ => Except.error "Could not cast to Int64")

/-- The float branch of the parse expression. -/
def castFloatVals (pattern : String) (vs : List Val) : Except String (List Val) :=
  vs.mapM (fun v =>
    match v with
    | Val.null => Except.ok Val.null
    | Val.str s =>
      let s2 := replaceAllMatches pattern s
      if s2 = "" ∨ s2 = "-" then Except.ok Val.null
      else match parseFracStr s2 with
        | some q => Except.ok (Val.float q)
        | none => Except.error "Could not cast to Float64"
    | _ => Except.error "Could not cast to Float64")

/-- The boolean branch of the parse expression: lower-case, clean, null-map,
replace the yes, no, true and false tokens by value, cast through an integer
intermediate to boolean. -/
def castBoolVals (pattern : String) (vs : List Val) : Except String (List Val) :=
  vs.mapM (fun v =>
    match v with
    | Val.null => Except.ok Val.null
    | Val.str s =>
      let s2 := replaceAllMatches pattern (strLower s)
      if s2 = "" ∨ s2 = "-" then Except.ok Val.null
      else
        let s3 := if s2 = "yes" ∨ s2 = "true" then "1"
          else if s2 = "no" ∨ s2 = "false" then "0"
          else s2
        match parseIntStr s3 with
        | some i => Except.ok (Val.bool (i ≠ 0))
        | none => Except.error "Could not cast to Boolean"
    | _ => Except.error "Could not cast to Boolean")

/-- The datetime branch of the parse expression: parse with the supplied
format (no cleaning pattern is applied). -/
def castDatetimeVals (fmt : String) (vs : List Val) : Except String (List Val) :=
  vs.mapM (fun v =>
    match v with
    | Val.null => Except.ok Val.null
    | Val.str s =>
      match parseDatetimeStr fmt s with
      | some d => Except.ok (Val.dt d)
      | none => Except.error "Could not parse datetime"
    | _ => Except.error "Could not parse datetime")

/-- The data-type switch of the parse expression: the output dtype and cast
cell values for one column. -/
def parseValsFor (schema : ColumnSchema) (vs : List Val) : Except String (DType × List Val) :=
  match schema.dataType with
  | DataTypeEnum.string =>
    Except.ok (DType.string, castStringVals schema.regexCleaningPattern vs)
  | DataTypeEnum.integer =>
    (castIntVals schema.regexCleaningPattern vs).map (fun vals => (DType.int64, vals))
  | DataTypeEnum.float =>
    (castFloatVals schema.regexCleaningPattern vs).map (fun vals => (DType.float64, vals))
  | DataTypeEnum.boolean =>
    (castBoolVals schema.regexCleaningPattern vs).map (fun vals => (DType.boolean, vals))
  | DataTypeEnum.datetime =>
    match schema.datetimeFormat with
    | none => Except.error "Datetime format inference is not available"
    | some fmt => (castDatetimeVals fmt vs).map (fun vals => (DType.datetime, vals))

/-- The per-column parse expression of ColumnSchemaTransform (staticmethod
parse expr): per data type, the cleaning, null-mapping and strict cast chain
of the source, evaluated against the whitespace-stripped frame and aliased
under the schema's column name. -/
def parseColumn (schema : ColumnSchema) (f : Frame) : Except String Column :=
  match f.getCol schema.name with
  | none => Except.error "Column not found in frame"
  | some c =>
    (parseValsFor schema c.values).map (fun p => ⟨schema.name, p.1, p.2⟩)

/-- The parse expressions of a schema list, evaluated in schema order with
the first failure propagating. -/
def parseColumns (schemas : List ColumnSchema) (f : Frame) : Except String (List Column) :=
  match schemas with
  | [] => Except.ok []
  | s :: rest => do
    let c ← parseColumn s f
    let cs ← parseColumns rest f
    Except.ok (c :: cs)

/-- ColumnSchemaTransform.apply: fail when a schema-listed column is absent;
otherwise whitespace-strip every column and select exactly the parse
expressions of the schema list, in schema order, wrapping any failure of the
parse pipeline in a descriptive error. -/
def columnSchemaApply (schemas : List ColumnSchema) (t : Table) : Except String Table :=
  if (schemas.map ColumnSchema.name).any (fun n => n ∉ t.data.colNames) then
    Except.error "Column not in data"
  else
    match (do
      let stripped ← t.data.stripAllStrings
      let parsed ← parseColumns schemas stripped
      if hasDupNames (parsed.map Column.name) then
        Except.error "Duplicate column names in selection"
      else Except.ok parsed : Except String (List Column)) with
    | Except.error e => Except.error ("Error parsing columns: " ++ e)
    | Except.ok cols => Except.ok { t with data := ⟨cols⟩ }

/-- Insertion-ordered association update (Python dict assignment). -/
def updateAssoc {α β : Type} [DecidableEq α] (xs : List (α × β)) (k : α) (v : β) : List (α × β) :=
  if xs.any (fun p => p.1 = k) then xs.map (fun p => if p.1 = k then (k, v) else p)
  else xs ++ [(k, v)]

/-- The part-to-column-name dictionary of each parent column, grouped in
schema order (the defaultdict of fuse_partial_datetime_columns). -/
def colGroups (schemas : List ColumnSchema) : List (String × List (DatetimePart × String)) :=
  schemas.foldl (fun acc s =>
    match s.partialDatetimeSchema with
    | none => acc
    | some pds =>
      let cur := ((acc.find? (fun p => p.1 = pds.parentColumnName)).map Prod.snd).getD []
      updateAssoc acc pds.parentColumnName (updateAssoc cur pds.part s.name)) []

/-- Name of the column holding the given part, if the group has one. -/
def lookupPart (parts : List (DatetimePart × String)) (p : DatetimePart) : Option String :=
  (parts.find? (fun q => q.1 = p)).map Prod.snd

/-- The staticmethod datetime part expr: the per-row integer value of one
datetime part.  A group without a column for the part, or a named column
absent from the frame, yields the default everywhere; an integer column is
used directly; a string column is parsed loosely (unparsable text and nulls
fall back to the default); any other dtype fails the str.to_integer call. -/
def datetimePartExpr (f : Frame) (columnName : Option String) (dflt : Option Int) :
    Except String (List (Option Int)) :=
  match columnName with
  | none => Except.ok (List.replicate f.height dflt)
  | some n =>
    match f.getCol n with
    | none => Except.ok (List.replicate f.height dflt)
    | some c =>
      match c.dtype with
      | DType.int64 => Except.ok (c.values.map (fun v =>
          match v with
          | Val.int i => some i
          | _ => none))
      | DType.string => Except.ok (c.values.map (fun v =>
          match v with
          | Val.str s => (parseIntStr s).orElse (fun _ => dflt)
          | _ => dflt))
      | _ => Except.error "to_integer used on a non-string column"

/-- One parent-column group of fuse_partial_datetime_columns: require a year
part, evaluate the six part expressions with their defaults, build the
composite datetime column (null whenever any part is null), add it under the
parent name and drop all of the group's named part columns (the strict drop
of polars 1.x fails when one of them is absent from the frame). -/
def fuseGroup (frame : Frame) (parent : String) (parts : List (DatetimePart × String)) :
    Except String Frame :=
  if (lookupPart parts DatetimePart.year).isNone then
    Except.error "Missing required year part"
  else do
    let ys ← datetimePartExpr frame (lookupPart parts DatetimePart.year) none
    let mos ← datetimePartExpr frame (lookupPart parts DatetimePart.month) (some 1)
    let ds ← datetimePartExpr frame (lookupPart parts DatetimePart.day) (some 1)
    let hs ← datetimePartExpr frame (lookupPart parts DatetimePart.hour) (some 0)
    let mis ← datetimePartExpr frame (lookupPart parts DatetimePart.minute) (some 0)
    let ss ← datetimePartExpr frame (lookupPart parts DatetimePart.second) (some 0)
    let vals := (List.range frame.height).map (fun i =>
      match ys.getD i none, mos.getD i none, ds.getD i none,
        hs.getD i none, mis.getD i none, ss.getD i none with
      | some y, some mo, some d, some h, some mi, some s =>
        Val.dt ⟨y, mo, d, h, mi, s⟩
      | _, _, _, _, _, _ => Val.null)
    let f2 := frame.withColumn (Column.mk parent DType.datetime vals)
    f2.drop (parts.map Prod.snd)

/-- The classmethod fuse pass: fold the parent-column groups over the frame. -/
def fusePartialDatetimeColumns (frame : Frame) (schemas : List ColumnSchema) :
    Except String Frame :=
  (colGroups schemas).foldlM (fun f g => fuseGroup f g.1 g.2) frame

/-- FusePartialDatetimeColumnsTransform.apply. -/
def fusePartialApply (schemas : List ColumnSchema) (t : Table) : Except String Table :=
  match fusePartialDatetimeColumns t.data schemas with
  | Except.error e => Except.error e
  | Except.ok d => Except.ok { t with data := d }

/-- polars n_unique of a column: number of distinct cell values, a null cell
counting as one distinct value. -/
def nUnique (vs : List Val) : Nat :=
  (dedupFirst vs).length

/-- Number of non-null cells (is_not_null().sum()). -/
def nonNullCount (vs : List Val) : Nat :=
  (vs.filter (fun v => v ≠ Val.null)).length

/-- The uniqueness statistics of StringToCategoricalTransform: per string
column with at least one non-null cell, the pair of the distinct count and
the non-null count (all-null columns are skipped). -/
def calculateUniqueness (f : Frame) (columns : List String) : List (String × Nat × Nat) :=
  columns.filterMap (fun col =>
    match f.getCol col with
    | none => none
    | some c =>
      if nonNullCount c.values = 0 then none
      else some (col, nUnique c.values, nonNullCount c.values))

/-- The selection step of StringToCategoricalTransform: keep the columns whose
distinct count lies within the configured bounds and whose uniqueness ratio
is at most the threshold. -/
def identifyCategoricalColumns (uniquenessThreshold : Frac) (minUnique maxUnique : Int)
    (stats : List (String × Nat × Nat)) : List String :=
  (stats.filter (fun st =>
    decide (minUnique ≤ (st.2.1 : Int) ∧ (st.2.1 : Int) ≤ maxUnique) &&
      Frac.le ⟨(st.2.1 : Int), (st.2.2 : Int)⟩ uniquenessThreshold)).map Prod.fst

/-- StringToCategoricalTransform.apply: no-op without string columns, compute
the uniqueness statistics, no-op when no column qualifies, otherwise cast the
qualifying columns to Categorical in place (values unchanged).  The local
bindings string_columns, uniqueness_stats and categorical_columns of the
source are inlined. -/
def stringToCategoricalApply (uniquenessThreshold : Frac) (minUnique maxUnique : Int)
    (t : Table) : Except String Table :=
  if (t.data.colsOfDType DType.string).isEmpty then Except.ok t
  else
    if (identifyCategoricalColumns uniquenessThreshold minUnique maxUnique
        (calculateUniqueness t.data (t.data.colsOfDType DType.string))).isEmpty then Except.ok t
    else Except.ok { t with data := ⟨t.data.cols.map (fun c =>
      if c.name ∈ identifyCategoricalColumns uniquenessThreshold minUnique maxUnique
          (calculateUniqueness t.data (t.data.colsOfDType DType.string))
        then { c with dtype := DType.cat } else c)⟩ }

/-- The column order DefaultColumnSortingTransform selects: sorted datetime
columns, then sorted categorical and string columns, then sorted numeric
columns. -/
def dcsOrder (t : Table) : List String :=
  sortStrings t.datetimeColumns ++ sortStrings t.categoricalColumns ++ sortStrings t.numericColumns

/-- DefaultColumnSortingTransform.apply: select the columns in the canonical
order (columns outside the three classifications are not selected). -/
def defaultColumnSortingApply (t : Table) : Except String Table :=
  match t.data.select (dcsOrder t) with
  | Except.error e => Except.error e
  | Except.ok d => Except.ok { t with data := d }

/-- The TableCache of cache.py: an insertion-ordered map from key to the
cached table, the key it was stored under and its insertion timestamp,
bounded by max size. -/
structure TableCache where
  cache : List (String × Table × String × Frac)
  maxSize : Nat
deriving DecidableEq

/-- Lowercase hexadecimal digit. -/
def hexChar (n : Nat) : Char :=
  "0123456789abcdef".toList.getD (n % 16) '0'

/-- Two-digit lowercase hex rendering of a byte. -/
def byteToHexStr (b : Nat) : String :=
  String.mk [hexChar (b / 16 % 16), hexChar (b % 16)]

/-- secrets.token_hex over explicit entropy bytes: the concatenation of the
two-digit hex renderings. -/
def tokenHex : List Nat → String
  | [] => ""
  | b :: bs => byteToHexStr b ++ tokenHex bs

/-- TableCache.generate_key: the table name, a colon and the hex rendering of
six entropy bytes (secrets.token_hex(6), a 12 character random hex string). -/
def generateKey (t : Table) (entropy : List Nat) : String :=
  t.name ++ ":" ++ tokenHex entropy

/-- The key whose entry has the oldest timestamp, the earliest-inserted one
winning ties (Python min over dict iteration order). -/
def argminTimestamp : List (String × Table × String × Frac) → Option String
  | [] => none
  | e :: es => some ((es.foldl (fun best p => if p.2.2.2.lt best.2.2.2 then p else best) e).1)

/-- TableCache evict oldest: remove the entry with the oldest timestamp, a
no-op on an empty cache. -/
def TableCache.evictOldest (c : TableCache) : TableCache :=
  match argminTimestamp c.cache with
  | none => c
  | some k => { c with cache := c.cache.eraseP (fun p => p.1 = k) }

/-- TableCache.put with the generated fresh key and the clock reading passed
explicitly: default the key, evict the oldest entry when the cache is at or
above capacity, and store the entry under the key. -/
def TableCache.put (c : TableCache) (tbl : Table) (key? : Option String)
    (freshKey : String) (now : Frac) : TableCache × String :=
  let key := key?.getD freshKey
  let c1 := if c.cache.length ≥ c.maxSize then c.evictOldest else c
  ({ c1 with cache := updateAssoc c1.cache key (tbl, key, now) }, key)

/-- TableCache.get. -/
def TableCache.get (c : TableCache) (k : String) : Option Table :=
  (c.cache.find? (fun p => p.1 = k)).map (fun p => p.2.1)

/-- One put request: the table, the optional explicit key, the key that
generate_key would produce and the clock reading. -/
structure PutReq where
  tbl : Table
  key? : Option String
  freshKey : String
  now : Frac

/-- A sequence of put operations against the cache. -/
def runPuts (c : TableCache) (rs : List PutReq) : TableCache :=
  rs.foldl (fun st r => (TableCache.put st r.tbl r.key? r.freshKey r.now).1) c

/-- The ten-row fixture of the concentration analysis test: a single category
A and revenue 1000 to 10000 in steps of 1000. -/
def c1Table : Table :=
  { name := "test_table"
    source := TableSource.csv
    data := ⟨[
      ⟨"category", DType.cat, [Val.str "A", Val.str "A", Val.str "A", Val.str "A", Val.str "A",
        Val.str "A", Val.str "A", Val.str "A", Val.str "A", Val.str "A"]⟩,
      ⟨"revenue", DType.int64, [Val.int 1000, Val.int 2000, Val.int 3000, Val.int 4000,
        Val.int 5000, Val.int 6000, Val.int 7000, Val.int 8000, Val.int 9000, Val.int 10000]⟩]⟩ }

/-- The expected concentration analysis output on the fixture: the Top 10
percent, Top 20 percent and Top 50 percent rows sum the top one, two and five
revenues, the Total row sums all ten, and the rows are in the ascending
lexical order of the label strings. -/
def c1Expected : Table :=
  { name := "test_table"
    source := TableSource.csv
    data := ⟨[
      ⟨"Concentration", DType.string,
        [Val.str "Top 10%", Val.str "Top 20%", Val.str "Top 50%", Val.str "Total"]⟩,
      ⟨"A", DType.int64,
        [Val.int 10000, Val.int 19000, Val.int 40000, Val.int 55000]⟩]⟩ }

/-- A table with empty data (no columns, hence height zero). -/
def emptyTable : Table :=
  { name := "empty", source := TableSource.csv, data := ⟨[]⟩ }

/-- The partial-datetime schema list of the fuse test: six integer part
columns fused under the parent column named datetime. -/
def fuseSchemas : List ColumnSchema :=
  [⟨"year", DataTypeEnum.integer, "", none, some ⟨DatetimePart.year, "datetime"⟩⟩,
   ⟨"month", DataTypeEnum.integer, "", none, some ⟨DatetimePart.month, "datetime"⟩⟩,
   ⟨"day", DataTypeEnum.integer, "", none, some ⟨DatetimePart.day, "datetime"⟩⟩,
   ⟨"hour", DataTypeEnum.integer, "", none, some ⟨DatetimePart.hour, "datetime"⟩⟩,
   ⟨"minute", DataTypeEnum.integer, "", none, some ⟨DatetimePart.minute, "datetime"⟩⟩,
   ⟨"second", DataTypeEnum.integer, "", none, some ⟨DatetimePart.second, "datetime"⟩⟩]

/-- The fuse test fixture: three rows of year, month, day, hour, minute and
second parts plus a value column. -/
def fuseTable : Table :=
  { name := "test_table", source := TableSource.csv, data := ⟨[
      ⟨"year", DType.int64, [Val.int 2023, Val.int 2023, Val.int 2023]⟩,
      ⟨"month", DType.int64, [Val.int 1, Val.int 2, Val.int 3]⟩,
      ⟨"day", DType.int64, [Val.int 1, Val.int 15, Val.int 30]⟩,
      ⟨"hour", DType.int64, [Val.int 10, Val.int 14, Val.int 18]⟩,
      ⟨"minute", DType.int64, [Val.int 30, Val.int 45, Val.int 0]⟩,
      ⟨"second", DType.int64, [Val.int 0, Val.int 30, Val.int 0]⟩,
      ⟨"value", DType.int64, [Val.int 100, Val.int 200, Val.int 300]⟩]⟩ }

/-- The fuse fixture with its month column removed while the schema list
still names a month part column. -/
def fuseTableNoMonth : Table :=
  { name := "test_table", source := TableSource.csv, data := ⟨[
      ⟨"year", DType.int64, [Val.int 2023, Val.int 2023, Val.int 2023]⟩,
      ⟨"day", DType.int64, [Val.int 1, Val.int 15, Val.int 30]⟩,
      ⟨"hour", DType.int64, [Val.int 10, Val.int 14, Val.int 18]⟩,
      ⟨"minute", DType.int64, [Val.int 30, Val.int 45, Val.int 0]⟩,
      ⟨"second", DType.int64, [Val.int 0, Val.int 30, Val.int 0]⟩,
      ⟨"value", DType.int64, [Val.int 100, Val.int 200, Val.int 300]⟩]⟩ }

/-- Expected fuse output: the value column, then the composite datetime
column, with every part column dropped. -/
def fuseExpected : Table :=
  { name := "test_table", source := TableSource.csv, data := ⟨[
      ⟨"value", DType.int64, [Val.int 100, Val.int 200, Val.int 300]⟩,
      ⟨"datetime", DType.datetime,
        [Val.dt ⟨2023, 1, 1, 10, 30, 0⟩, Val.dt ⟨2023, 2, 15, 14, 45, 30⟩,
         Val.dt ⟨2023, 3, 30, 18, 0, 0⟩]⟩]⟩ }

/-- The StringToCategoricalTransform test fixture: an integer id column, a
category column with three distinct values over five rows and a name column
with five distinct values over five rows. -/
def s2cTable : Table :=
  { name := "t", source := TableSource.csv, data := ⟨[
      ⟨"id", DType.int64, [Val.int 1, Val.int 2, Val.int 3, Val.int 4, Val.int 5]⟩,
      ⟨"category", DType.string,
        [Val.str "A", Val.str "A", Val.str "B", Val.str "B", Val.str "C"]⟩,
      ⟨"name", DType.string,
        [Val.str "Alice", Val.str "Bob", Val.str "Charlie", Val.str "David", Val.str "Eve"]⟩]⟩ }

/-- A one-row table holding a Boolean column and an Int64 column. -/
def boolTable : Table :=
  { name := "t", source := TableSource.csv, data := ⟨[
      ⟨"flag", DType.boolean, [Val.bool true]⟩,
      ⟨"x", DType.int64, [Val.int 1]⟩]⟩ }

deriving instance DecidableEq for Except

end DataBrowser

namespace DataBrowser

/-- C1: ConcentrationAnalysisTransform with on revenue, by category and the
default labels and breaks, applied through the shared wrapper to the ten-row
single-category fixture, returns exactly the table whose Top 10 percent row
holds 10000 in the A column, Top 20 percent row 19000, Top 50 percent row
40000 and Total row 55000, with the rows in ascending lexical order of the
label strings of the Concentration column (Top 10 percent, Top 20 percent,
Top 50 percent, Total). -/
theorem concentration_c1_exact :
    callT (concentrationApply "revenue" ["category"]
      ["Top 50%", "Top 20%", "Top 10%"] [⟨5, 10⟩, ⟨8, 10⟩, ⟨9, 10⟩] "Concentration") c1Table
    = Except.ok c1Expected := by
  decide

/-- C3 counterexample: on an empty-data table the wrapper fails with the
message Cannot transform empty dataframe (capital C), which is not the
lowercase message the claim states. -/
theorem empty_message_capitalization_counterexample :
    callT defaultColumnSortingApply emptyTable = Except.error "Cannot transform empty dataframe" ∧
    "Cannot transform empty dataframe" ≠ "cannot transform empty dataframe" := by
  exact ⟨rfl, by decide⟩

/-- C3 amended: for every transform-specific apply and every table whose data
is empty, the shared wrapper fails with the precondition error whose message
is Cannot transform empty dataframe, before the transform-specific apply
runs. -/
theorem empty_table_precondition_error (tf : Table → Except String Table) (t : Table)
    (h : t.data.isEmpty = true) :
    callT tf t = Except.error "Cannot transform empty dataframe" := by
  simp [callT, h]

/-- Witness: the amended C3 theorem applied at the empty-data table and the
column-sorting transform. -/
theorem empty_table_precondition_error_witness :
    emptyTable.data.isEmpty = true ∧
    callT defaultColumnSortingApply emptyTable = Except.error "Cannot transform empty dataframe" :=
  ⟨rfl, empty_table_precondition_error defaultColumnSortingApply emptyTable rfl⟩

/-- C8: for every non-empty table whose measure and dimension validations
succeed for the configured columns, the concentration analysis with empty
breaks and labels returns the input table unchanged, before any total row is
computed. -/
theorem concentration_empty_breaks_identity (onCol : String) (byCols : List String)
    (outputColumn : String) (t : Table)
    (hm : t.validateMeasures [onCol] = Except.ok ())
    (hd : t.validateDimensions byCols = Except.ok ())
    (hne : t.data.isEmpty = false) :
    callT (concentrationApply onCol byCols [] [] outputColumn) t = Except.ok t := by
  simp [callT, hne, concentrationApply, concBreakTables, hm, hd]
  rfl

/-- Witness: the C8 theorem applied at the ten-row fixture. -/
theorem concentration_empty_breaks_identity_witness :
    c1Table.validateMeasures ["revenue"] = Except.ok () ∧
    c1Table.validateDimensions ["category"] = Except.ok () ∧
    c1Table.data.isEmpty = false ∧
    callT (concentrationApply "revenue" ["category"] [] [] "Concentration") c1Table
      = Except.ok c1Table :=
  ⟨rfl, rfl, rfl,
    concentration_empty_breaks_identity "revenue" ["category"] "Concentration" c1Table rfl rfl rfl⟩

/-- C5 (code evidence): with every named part column present the fuse
transform produces the single composite datetime column and drops the part
columns, but when the month column named by the schema group is absent from
the table, the transform fails at the strict drop even though the part
expression substituted the default 1, contradicting the documented
substitute-instead-of-failing behavior. -/
theorem fuse_missing_part_column_fails :
    callT (fusePartialApply fuseSchemas) fuseTable = Except.ok fuseExpected ∧
    callT (fusePartialApply fuseSchemas) fuseTableNoMonth
      = Except.error "Column not found in frame" := by
  exact ⟨by decide, by decide⟩

/-- C4 counterexample: on a table holding a Boolean column and an Int64
column, the column-sorting transform drops the Boolean column (it belongs to
none of the three classifications), so the output does not contain the same
columns as the input. -/
theorem sorting_drops_boolean_column_counterexample :
    boolTable.data.colNames = ["flag", "x"] ∧
    callT defaultColumnSortingApply boolTable
      = Except.ok (Table.mk "t" TableSource.csv ⟨[⟨"x", DType.int64, [Val.int 1]⟩]⟩) := by
  exact ⟨rfl, by decide⟩

/-- C9 counterexample: with max size 0, a put on the empty cache evicts
nothing (the eviction helper returns early on an empty cache) and then
inserts, so the number of cached entries exceeds max size. -/
theorem cache_capacity_zero_counterexample :
    ((TableCache.put { cache := [], maxSize := 0 } boolTable none "t:000000000000"
      (Frac.ofInt 0)).1).cache.length
      > ({ cache := [], maxSize := 0 } : TableCache).maxSize := by
  decide

/-- Taking both lists down to the length of the shorter one does not change
their zip. -/
theorem zip_eq_zip_take_min {α β : Type} :
    ∀ (l1 : List α) (l2 : List β),
      (l1.take (min l1.length l2.length)).zip (l2.take (min l1.length l2.length)) = l1.zip l2
  | [], l2 => by simp
  | _ :: _, [] => by simp
  | a :: l1, b :: l2 => by
    have ih := zip_eq_zip_take_min l1 l2
    simp only [List.length_cons, Nat.succ_min_succ, List.take_succ_cons, List.zip_cons_cons, ih]

/-- The loop over the (break, label) pairs produces exactly one table per
pair when it succeeds. -/
theorem concBreakList_ok_length (onCol : String) (byCols : List String)
    (outputColumn : String) (tbl : Table) :
    ∀ (ps : List (Frac × String)) (ts : List Table),
      concBreakList onCol byCols outputColumn tbl ps = Except.ok ts → ts.length = ps.length
  | [], ts => by
    intro h
    simp only [concBreakList] at h
    cases h
    rfl
  | p :: ps, ts => by
    intro h
    simp only [concBreakList] at h
    cases hp : concBreakPipeline onCol byCols outputColumn tbl p with
    | error e => rw [hp] at h; exact absurd h (by simp [Bind.bind, Except.bind])
    | ok t =>
      rw [hp] at h
      cases hr : concBreakList onCol byCols outputColumn tbl ps with
      | error e => rw [hr] at h; exact absurd h (by simp [Bind.bind, Except.bind])
      | ok ts0 =>
        rw [hr] at h
        simp only [Bind.bind, Except.bind, Except.ok.injEq] at h
        have := concBreakList_ok_length onCol byCols outputColumn tbl ps ts0 hr
        subst h
        simp [this]

/-- The zipped pairs are unchanged by truncating breaks and labels to the
length of the shorter list, so the per-break tables are too. -/
theorem concBreakTables_truncate (onCol : String) (byCols : List String)
    (outputColumn : String) (tbl : Table) (breaks : List Frac) (labels : List String) :
    concBreakTables onCol byCols outputColumn tbl
      (breaks.take (min breaks.length labels.length))
      (labels.take (min breaks.length labels.length))
      = concBreakTables onCol byCols outputColumn tbl breaks labels := by
  unfold concBreakTables
  rw [zip_eq_zip_take_min]

/-- C10: the concentration analysis pairs breaks and labels positionally and
silently ignores the trailing elements of the longer list - its result is
the result on the two lists truncated to the shorter length - and on
success the per-break loop produces exactly one table for each of the first
min(len(breaks), len(labels)) pairs. -/
theorem concentration_mismatched_lengths_truncate (onCol : String) (byCols : List String)
    (outputColumn : String) (t : Table) (breaks : List Frac) (labels : List String) :
    concentrationApply onCol byCols labels breaks outputColumn t
      = concentrationApply onCol byCols
          (labels.take (min breaks.length labels.length))
          (breaks.take (min breaks.length labels.length)) outputColumn t ∧
    (∀ ts, concBreakTables onCol byCols outputColumn t breaks labels = Except.ok ts →
      ts.length = min breaks.length labels.length) := by
  constructor
  · unfold concentrationApply
    rw [concBreakTables_truncate]
  · intro ts h
    unfold concBreakTables at h
    have := concBreakList_ok_length onCol byCols outputColumn t (breaks.zip labels) ts h
    simpa using this

/-- The single per-break table of the truncation witness: the pivoted Top 50
percent row of the ten-row fixture. -/
def c10BreakTables : List Table :=
  [{ name := "test_table", source := TableSource.csv,
     data := ⟨[⟨"Concentration", DType.cat, [Val.str "Top 50%"]⟩,
       ⟨"A", DType.int64, [Val.int 40000]⟩]⟩ }]

/-- Witness: the C10 theorem applied with one break and two labels on the
ten-row fixture; the extra label junk is ignored and the loop produces one
table. -/
theorem concentration_mismatched_lengths_truncate_witness :
    (concentrationApply "revenue" ["category"] ["Top 50%", "junk"] [⟨5, 10⟩] "Concentration" c1Table
      = concentrationApply "revenue" ["category"] ["Top 50%"] [⟨5, 10⟩] "Concentration" c1Table) ∧
    c10BreakTables.length = min ([Frac.mk 5 10] : List Frac).length ["Top 50%", "junk"].length :=
  ⟨(concentration_mismatched_lengths_truncate "revenue" ["category"] "Concentration" c1Table
      [⟨5, 10⟩] ["Top 50%", "junk"]).1,
   (concentration_mismatched_lengths_truncate "revenue" ["category"] "Concentration" c1Table
      [⟨5, 10⟩] ["Top 50%", "junk"]).2 c10BreakTables (by decide)⟩

/-- Every key stored in a heap is below the fresh reference. -/
theorem key_lt_freshRef (h : Heap) (p : Nat × Table) (hp : p ∈ h) : p.1 < freshRef h := by
  unfold freshRef
  have hle : p.1 ≤ List.foldr (fun (q : Nat × Table) m => max q.1 m) 0 h := by
    induction h with
    | nil => cases hp
    | cons q t ih =>
      rcases List.mem_cons.mp hp with hq | hm
      · subst hq
        exact le_max_left _ _
      · exact le_trans (ih hm) (le_max_right _ _)
  omega

/-- Appending a new object does not change the lookup of a reference that is
already bound. -/
theorem lookup_append_of_isSome (h : Heap) (e : Nat × Table) (r : Nat)
    (hs : (Heap.lookup h r).isSome) :
    Heap.lookup (h ++ [e]) r = Heap.lookup h r := by
  unfold Heap.lookup at *
  induction h with
  | nil => simp at hs
  | cons q t ih =>
    simp only [List.cons_append, List.find?] at *
    cases hq : decide (q.1 = r) with
    | true => simp only [hq]
    | false =>
      simp only [hq] at hs ⊢
      exact ih hs

/-- Overwriting one object leaves the lookup of every other reference
unchanged. -/
theorem lookup_set_ne (h : Heap) (r2 : Nat) (tb : Table) (r : Nat) (hne : r ≠ r2) :
    Heap.lookup (Heap.set h r2 tb) r = Heap.lookup h r := by
  unfold Heap.lookup Heap.set
  induction h with
  | nil => rfl
  | cons q t ih =>
    by_cases hq2 : q.1 = r2
    · have hqr : (decide (q.1 = r)) = false := by
        simp only [decide_eq_false_iff_not]
        omega
      simp only [List.map_cons, if_pos hq2, List.find?, hqr]
      exact ih
    · simp only [List.map_cons, if_neg hq2, List.find?]
      cases hqr : decide (q.1 = r) with
      | true => simp only [hqr]
      | false =>
        simp only [hqr]
        exact ih

/-- A bound reference is below the fresh reference. -/
theorem lookup_some_key_lt (h : Heap) (r : Nat) (t : Table)
    (hl : Heap.lookup h r = some t) : r < freshRef h := by
  unfold Heap.lookup at hl
  cases hf : List.find? (fun p => p.1 = r) h with
  | none => rw [hf] at hl; cases hl
  | some p =>
    have hp1 : p.1 = r := by simpa using List.find?_some hf
    have hm := List.mem_of_find?_eq_some hf
    have := key_lt_freshRef h p hm
    omega

/-- C2: for every transform-specific apply function (covering every transform
subtype with any configuration) and every heap and input object, invoking the
transform through the shared wrapper leaves the input object's value
unchanged: the wrapper deep-copies the table into a fresh object and runs the
apply against the copy, whether the apply succeeds or fails. -/
theorem transform_call_never_mutates_input (tf : Table → Except String Table)
    (h : Heap) (r : Nat) :
    Heap.lookup (callTransformOn tf h r).1 r = Heap.lookup h r := by
  unfold callTransformOn
  cases hl : Heap.lookup h r with
  | none => simp [hl]
  | some t =>
    have hs : (Heap.lookup h r).isSome := by rw [hl]; rfl
    have hr : r < freshRef h := lookup_some_key_lt h r t hl
    by_cases he : t.data.isEmpty
    · simp [he, hl]
    · cases ha : tf t with
      | error e =>
        simp only [he, Bool.false_eq_true, if_false, ha, Heap.alloc]
        rw [List.append_eq, lookup_append_of_isSome h _ r hs]
        exact hl
      | ok t2 =>
        simp only [he, Bool.false_eq_true, if_false, ha, Heap.alloc]
        rw [lookup_set_ne _ _ _ _ (by omega : r ≠ freshRef h)]
        rw [List.append_eq, lookup_append_of_isSome h _ r hs]
        exact hl

/-- A successfully parsed column carries the name of its schema. -/
theorem parseColumn_name (s : ColumnSchema) (f : Frame) (c : Column)
    (h : parseColumn s f = Except.ok c) : c.name = s.name := by
  unfold parseColumn at h
  split at h
  · exact Except.noConfusion h
  · rename_i col heq
    cases hv : parseValsFor s col.values with
    | error e =>
      rw [hv] at h
      exact Except.noConfusion h
    | ok p =>
      rw [hv] at h
      simp only [Except.map] at h
      cases h
      rfl

/-- The successfully parsed columns carry exactly the schema names, in schema
order. -/
theorem parseColumns_names (f : Frame) :
    ∀ (ss : List ColumnSchema) (cs : List Column),
      parseColumns ss f = Except.ok cs → cs.map Column.name = ss.map ColumnSchema.name
  | [], cs => by
    intro h
    unfold parseColumns at h
    cases h
    rfl
  | s :: ss, cs => by
    intro h
    unfold parseColumns at h
    cases hc : parseColumn s f with
    | error e =>
      rw [hc] at h
      exact Except.noConfusion h
    | ok c =>
      rw [hc] at h
      simp only [Bind.bind, Except.bind] at h
      cases hr : parseColumns ss f with
      | error e =>
        rw [hr] at h
        exact Except.noConfusion h
      | ok cs0 =>
        rw [hr] at h
        cases h
        simp only [List.map_cons, parseColumn_name s f c hc, parseColumns_names f ss cs0 hr]

/-- C6: ColumnSchemaTransform fails when any schema-listed column name is
absent from the table, and whenever it succeeds its output holds exactly the
columns named in the schema list, in schema-list order, every unlisted column
dropped. -/
theorem column_schema_exact_columns (schemas : List ColumnSchema) (t : Table) :
    ((∃ s ∈ schemas, s.name ∉ t.data.colNames) →
      columnSchemaApply schemas t = Except.error "Column not in data") ∧
    (∀ t2, columnSchemaApply schemas t = Except.ok t2 →
      t2.data.colNames = schemas.map ColumnSchema.name) := by
  constructor
  · rintro ⟨s, hs, hn⟩
    unfold columnSchemaApply
    rw [if_pos]
    rw [List.any_eq_true]
    exact ⟨s.name, List.mem_map.mpr ⟨s, hs, rfl⟩, by simpa using hn⟩
  · intro t2 h
    unfold columnSchemaApply at h
    by_cases hany :
        ((schemas.map ColumnSchema.name).any (fun n => decide (n ∉ t.data.colNames))) = true
    · rw [if_pos hany] at h
      exact Except.noConfusion h
    · rw [if_neg hany] at h
      cases hstrip : t.data.stripAllStrings with
      | error e =>
        rw [hstrip] at h
        simp only [Bind.bind, Except.bind] at h
        exact Except.noConfusion h
      | ok stripped =>
        rw [hstrip] at h
        simp only [Bind.bind, Except.bind] at h
        cases hp : parseColumns schemas stripped with
        | error e =>
          rw [hp] at h
          exact Except.noConfusion h
        | ok parsed =>
          rw [hp] at h
          dsimp only at h
          by_cases hdup : hasDupNames (parsed.map Column.name) = true
          · rw [if_pos hdup] at h
            exact Except.noConfusion h
          · rw [if_neg hdup] at h
            cases h
            simpa [Frame.colNames] using parseColumns_names stripped schemas parsed hp

/-- A two-entry schema list: the string column b then the integer column a. -/
def c6Schemas : List ColumnSchema :=
  [⟨"b", DataTypeEnum.string, "", none, none⟩,
   ⟨"a", DataTypeEnum.integer, "", none, none⟩]

/-- A raw three-column string table for the schema application witness. -/
def c6Table : Table :=
  { name := "t", source := TableSource.csv, data := ⟨[
      ⟨"a", DType.string, [Val.str "1"]⟩,
      ⟨"b", DType.string, [Val.str "x"]⟩,
      ⟨"c", DType.string, [Val.str "y"]⟩]⟩ }

/-- The schema application output on the witness table: exactly the schema
columns b then a, the unlisted column c dropped. -/
def c6Out : Table :=
  { name := "t", source := TableSource.csv, data := ⟨[
      ⟨"b", DType.string, [Val.str "x"]⟩,
      ⟨"a", DType.int64, [Val.int 1]⟩]⟩ }

/-- Witness: the C6 theorem applied at concrete inputs, in its failure part
(the schema names are absent from the boolean table) and in its success part
(the output columns are exactly the schema names in schema order). -/
theorem column_schema_exact_columns_witness :
    columnSchemaApply c6Schemas boolTable = Except.error "Column not in data" ∧
    c6Out.data.colNames = c6Schemas.map ColumnSchema.name :=
  ⟨(column_schema_exact_columns c6Schemas boolTable).1
      ⟨⟨"b", DataTypeEnum.string, "", none, none⟩, by decide, by decide⟩,
   (column_schema_exact_columns c6Schemas c6Table).2 c6Out (by decide)⟩

/-- Under unique column names, looking a member column up by its own name
finds it. -/
theorem find?_name_of_mem_nodup :
    ∀ (cols : List Column), (cols.map Column.name).Nodup →
      ∀ c ∈ cols, cols.find? (fun c2 => c2.name = c.name) = some c
  | [], _, c, hc => by cases hc
  | d :: rest, hn, c, hc => by
    rcases List.mem_cons.mp hc with rfl | hm
    · simp [List.find?]
    · have hd : ¬ d.name = c.name := by
        intro he
        have hmem : c.name ∈ rest.map Column.name := List.mem_map_of_mem Column.name hm
        rw [← he] at hmem
        exact (List.nodup_cons.mp hn).1 hmem
      have ih := find?_name_of_mem_nodup rest (List.nodup_cons.mp hn).2 c hm
      simp only [List.find?, decide_eq_false hd]
      exact ih

/-- Under unique column names, getCol of a member column's name is that
column. -/
theorem getCol_of_mem_nodup (f : Frame) (hn : (f.cols.map Column.name).Nodup)
    (c : Column) (hc : c ∈ f.cols) : f.getCol c.name = some c :=
  find?_name_of_mem_nodup f.cols hn c hc

/-- Under unique column names, two member columns with the same name are the
same column. -/
theorem name_inj_of_nodup (f : Frame) (hn : (f.cols.map Column.name).Nodup)
    {c c2 : Column} (hc : c ∈ f.cols) (hc2 : c2 ∈ f.cols) (he : c2.name = c.name) :
    c2 = c := by
  have h1 := getCol_of_mem_nodup f hn c hc
  have h2 := getCol_of_mem_nodup f hn c2 hc2
  rw [he, h1] at h2
  exact ((Option.some.injEq _ _).mp h2).symm

/-- Membership in the columns of one dtype. -/
theorem mem_colsOfDType (f : Frame) (d : DType) (n : String) :
    n ∈ f.colsOfDType d ↔ ∃ c ∈ f.cols, c.dtype = d ∧ c.name = n := by
  unfold Frame.colsOfDType
  simp [List.mem_map, List.mem_filter, and_assoc]

/-- The boolean fraction order agrees with the rational order of the denoted
values when both denominators are positive. -/
theorem frac_le_iff_toRat (a b : Frac) (ha : 0 < a.den) (hb : 0 < b.den) :
    a.le b = true ↔ a.toRat ≤ b.toRat := by
  unfold Frac.le Frac.toRat
  rw [decide_eq_true_iff]
  rw [div_le_div_iff₀ (by exact_mod_cast ha) (by exact_mod_cast hb)]
  constructor
  · intro h
    exact_mod_cast h
  · intro h
    exact_mod_cast h

/-- A member column's name is selected by the uniqueness criterion exactly
when the column is a text column whose distinct count lies within the bounds
and whose uniqueness ratio is at most the threshold. -/
theorem mem_identify_iff (threshold : Frac) (minUnique maxUnique : Int) (t : Table)
    (hden : 0 < threshold.den)
    (hnn : ∀ c ∈ t.data.cols, c.dtype = DType.string → 0 < nonNullCount c.values)
    (hnames : (t.data.cols.map Column.name).Nodup)
    (c : Column) (hc : c ∈ t.data.cols) :
    c.name ∈ identifyCategoricalColumns threshold minUnique maxUnique
      (calculateUniqueness t.data (t.data.colsOfDType DType.string))
    ↔ (c.dtype = DType.string ∧ minUnique ≤ (nUnique c.values : Int) ∧
        (nUnique c.values : Int) ≤ maxUnique ∧
        ((nUnique c.values : ℚ) / (nonNullCount c.values : ℚ)) ≤ threshold.toRat) := by
  have htoRat : ∀ (u tot : Nat),
      Frac.toRat ⟨(u : Int), (tot : Int)⟩ = ((u : ℚ) / (tot : ℚ)) := by
    intro u tot
    simp [Frac.toRat]
  unfold identifyCategoricalColumns calculateUniqueness
  rw [List.mem_map]
  constructor
  · rintro ⟨st, hst, hname⟩
    rw [List.mem_filter] at hst
    obtain ⟨hstats, hpred⟩ := hst
    rw [List.mem_filterMap] at hstats
    obtain ⟨nm, hnm, hg⟩ := hstats
    rw [mem_colsOfDType] at hnm
    obtain ⟨c2, hc2, hdt2, hnm2⟩ := hnm
    subst hnm2
    rw [getCol_of_mem_nodup t.data hnames c2 hc2] at hg
    dsimp only at hg
    have hpos := hnn c2 hc2 hdt2
    rw [if_neg (by omega)] at hg
    cases hg
    have hname2 : c2.name = c.name := hname
    have hc2c : c2 = c := name_inj_of_nodup t.data hnames hc hc2 hname2
    subst hc2c
    rw [Bool.and_eq_true, decide_eq_true_iff] at hpred
    obtain ⟨⟨hb1, hb2⟩, hble⟩ := hpred
    refine ⟨hdt2, hb1, hb2, ?_⟩
    have := (frac_le_iff_toRat ⟨(nUnique c2.values : Int), (nonNullCount c2.values : Int)⟩
      threshold (by show (0 : Int) < ((nonNullCount c2.values : Nat) : Int); exact_mod_cast hpos)
      hden).mp hble
    rwa [htoRat] at this
  · rintro ⟨hdt, hb1, hb2, hratio⟩
    have hpos := hnn c hc hdt
    refine ⟨(c.name, nUnique c.values, nonNullCount c.values), ?_, rfl⟩
    rw [List.mem_filter]
    constructor
    · rw [List.mem_filterMap]
      refine ⟨c.name, (mem_colsOfDType t.data DType.string c.name).mpr ⟨c, hc, hdt, rfl⟩, ?_⟩
      rw [getCol_of_mem_nodup t.data hnames c hc]
      dsimp only
      rw [if_neg (by omega)]
    · rw [Bool.and_eq_true, decide_eq_true_iff]
      refine ⟨⟨hb1, hb2⟩, ?_⟩
      rw [frac_le_iff_toRat ⟨(nUnique c.values : Int), (nonNullCount c.values : Int)⟩ _
        (by show (0 : Int) < ((nonNullCount c.values : Nat) : Int); exact_mod_cast hpos) hden, htoRat]
      exact hratio

/-- C7: on every table with unique column names whose text columns each hold
at least one non-null cell, StringToCategoricalTransform succeeds and
reclassifies a column as categorical exactly when it is a text column with
min unique at most the distinct count, the distinct count at most max unique
and the distinct count divided by the non-null count at most the uniqueness
threshold; every other column, text or not, passes through unchanged. -/
theorem string_to_categorical_iff (threshold : Frac) (minUnique maxUnique : Int) (t : Table)
    (hden : 0 < threshold.den)
    (hnn : ∀ c ∈ t.data.cols, c.dtype = DType.string → 0 < nonNullCount c.values)
    (hnames : (t.data.cols.map Column.name).Nodup) :
    ∃ t2, stringToCategoricalApply threshold minUnique maxUnique t = Except.ok t2 ∧
      t2.data.cols = t.data.cols.map (fun c =>
        if c.dtype = DType.string ∧ minUnique ≤ (nUnique c.values : Int) ∧
            (nUnique c.values : Int) ≤ maxUnique ∧
            ((nUnique c.values : ℚ) / (nonNullCount c.values : ℚ)) ≤ threshold.toRat
        then { c with dtype := DType.cat } else c) := by
  have hmem := mem_identify_iff threshold minUnique maxUnique t hden hnn hnames
  by_cases hs : (t.data.colsOfDType DType.string).isEmpty
  · refine ⟨t, by unfold stringToCategoricalApply; rw [if_pos hs], ?_⟩
    have hnostr : ∀ c ∈ t.data.cols, ¬ c.dtype = DType.string := by
      intro c hc hdt
      have hmemstr : c.name ∈ t.data.colsOfDType DType.string :=
        (mem_colsOfDType t.data DType.string c.name).mpr ⟨c, hc, hdt, rfl⟩
      rw [List.isEmpty_iff.mp hs] at hmemstr
      cases hmemstr
    have hfix : t.data.cols.map (fun c =>
        if c.dtype = DType.string ∧ minUnique ≤ (nUnique c.values : Int) ∧
            (nUnique c.values : Int) ≤ maxUnique ∧
            ((nUnique c.values : ℚ) / (nonNullCount c.values : ℚ)) ≤ threshold.toRat
        then { c with dtype := DType.cat } else c) = t.data.cols.map id := by
      refine List.map_congr_left (fun c hc => ?_)
      rw [if_neg (fun hcond => hnostr c hc hcond.1)]
      rfl
    rw [hfix, List.map_id]
  · by_cases hcat : (identifyCategoricalColumns threshold minUnique maxUnique
        (calculateUniqueness t.data (t.data.colsOfDType DType.string))).isEmpty
    · refine ⟨t, by unfold stringToCategoricalApply; rw [if_neg hs, if_pos hcat], ?_⟩
      have hfix : t.data.cols.map (fun c =>
          if c.dtype = DType.string ∧ minUnique ≤ (nUnique c.values : Int) ∧
              (nUnique c.values : Int) ≤ maxUnique ∧
              ((nUnique c.values : ℚ) / (nonNullCount c.values : ℚ)) ≤ threshold.toRat
          then { c with dtype := DType.cat } else c) = t.data.cols.map id := by
        refine List.map_congr_left (fun c hc => ?_)
        rw [if_neg (fun hcond => ?_)]
        · rfl
        · have := (hmem c hc).mpr hcond
          rw [List.isEmpty_iff.mp hcat] at this
          cases this
      rw [hfix, List.map_id]
    · refine ⟨_, by unfold stringToCategoricalApply; rw [if_neg hs, if_neg hcat], ?_⟩
      show t.data.cols.map _ = t.data.cols.map _
      refine List.map_congr_left (fun c hc => ?_)
      exact if_congr (hmem c hc) rfl rfl

/-- The transform output on the uniqueness fixture with threshold six tenths:
the category column (three distinct values over five rows, ratio at the
threshold) becomes categorical; the name column (five distinct over five)
and the integer id column are unchanged. -/
def s2cOut : Table :=
  { name := "t", source := TableSource.csv, data := ⟨[
      ⟨"id", DType.int64, [Val.int 1, Val.int 2, Val.int 3, Val.int 4, Val.int 5]⟩,
      ⟨"category", DType.cat,
        [Val.str "A", Val.str "A", Val.str "B", Val.str "B", Val.str "C"]⟩,
      ⟨"name", DType.string,
        [Val.str "Alice", Val.str "Bob", Val.str "Charlie", Val.str "David", Val.str "Eve"]⟩]⟩ }

/-- Witness: the C7 theorem applied at the uniqueness fixture with threshold
six tenths and bounds two and ten. -/
theorem string_to_categorical_iff_witness :
    stringToCategoricalApply ⟨6, 10⟩ 2 10 s2cTable = Except.ok s2cOut ∧
    s2cOut.data.cols = s2cTable.data.cols.map (fun c =>
      if c.dtype = DType.string ∧ (2 : Int) ≤ (nUnique c.values : Int) ∧
          (nUnique c.values : Int) ≤ (10 : Int) ∧
          ((nUnique c.values : ℚ) / (nonNullCount c.values : ℚ)) ≤ Frac.toRat ⟨6, 10⟩
      then { c with dtype := DType.cat } else c) := by
  obtain ⟨t2, h1, h2⟩ :=
    string_to_categorical_iff ⟨6, 10⟩ 2 10 s2cTable (by decide) (by decide) (by decide)
  have hconc : stringToCategoricalApply ⟨6, 10⟩ 2 10 s2cTable = Except.ok s2cOut := by decide
  have ht2 : t2 = s2cOut := Except.ok.inj (h1.symm.trans hconc)
  exact ⟨hconc, ht2 ▸ h2⟩

/-- The dtypes the three column classifications cover: every other dtype is
invisible to DefaultColumnSortingTransform. -/
def classifiableDType (d : DType) : Prop :=
  d = DType.datetime ∨ d = DType.cat ∨ d = DType.string ∨ d = DType.float64 ∨ d = DType.int64

/-- Decidability of the classification side condition. -/
instance (d : DType) : Decidable (classifiableDType d) := by
  unfold classifiableDType
  infer_instance

/-- Stable insertion only reorders. -/
theorem insertS_perm {α : Type} (le : α → α → Bool) (x : α) :
    ∀ (l : List α), (insertS le x l).Perm (x :: l)
  | [] => List.Perm.refl _
  | y :: ys => by
    unfold insertS
    by_cases hy : le y x = true
    · rw [if_pos hy]
      exact ((insertS_perm le x ys).cons y).trans (List.Perm.swap x y ys)
    · rw [if_neg hy]

/-- Folding stable insertion accumulates a permutation. -/
theorem sortByB_fold_perm {α : Type} (le : α → α → Bool) :
    ∀ (xs acc : List α), (xs.foldl (fun a x => insertS le x a) acc).Perm (acc ++ xs)
  | [], acc => by simp
  | x :: xs, acc => by
    simp only [List.foldl_cons]
    refine (sortByB_fold_perm le xs (insertS le x acc)).trans ?_
    refine (List.Perm.append_right xs (insertS_perm le x acc)).trans ?_
    exact List.perm_middle.symm

/-- The stable insertion sort is a permutation. -/
theorem sortByB_perm {α : Type} (le : α → α → Bool) (xs : List α) :
    (sortByB le xs).Perm xs := by
  unfold sortByB
  simpa using sortByB_fold_perm le xs []

/-- Sorting strings is a permutation. -/
theorem sortStrings_perm (xs : List String) : (sortStrings xs).Perm xs :=
  sortByB_perm strLeB xs

/-- When every column is classified, the concatenation of the five
per-dtype name lists (grouped the way the transform groups them) is a
permutation of the column names. -/
theorem classified_names_perm :
    ∀ (cols : List Column), (∀ c ∈ cols, classifiableDType c.dtype) →
      (((cols.filter (fun c => c.dtype = DType.datetime)).map Column.name ++
        ((cols.filter (fun c => c.dtype = DType.cat)).map Column.name ++
         (cols.filter (fun c => c.dtype = DType.string)).map Column.name)) ++
       ((cols.filter (fun c => c.dtype = DType.float64)).map Column.name ++
        (cols.filter (fun c => c.dtype = DType.int64)).map Column.name)).Perm
      (cols.map Column.name)
  | [], _ => by simp
  | c :: cols, h => by
    have ih := classified_names_perm cols (fun c2 h2 => h c2 (List.mem_cons_of_mem c h2))
    have hcl := h c (List.mem_cons_self c cols)
    have fpos : ∀ d : DType, c.dtype = d →
        List.filter (fun c2 => c2.dtype = d) (c :: cols) =
          c :: List.filter (fun c2 => c2.dtype = d) cols := by
      intro d hd
      rw [List.filter_cons_of_pos]
      simp [hd]
    have fneg : ∀ d : DType, ¬ (c.dtype = d) →
        List.filter (fun c2 => c2.dtype = d) (c :: cols) =
          List.filter (fun c2 => c2.dtype = d) cols := by
      intro d hd
      rw [List.filter_cons_of_neg]
      simp [hd]
    cases hcd : c.dtype with
    | boolean =>
      rw [hcd] at hcl
      rcases hcl with h5 | h5 | h5 | h5 | h5 <;> cases h5
    | datetime =>
      rw [fpos DType.datetime hcd, fneg DType.cat (by rw [hcd]; decide),
        fneg DType.string (by rw [hcd]; decide), fneg DType.float64 (by rw [hcd]; decide),
        fneg DType.int64 (by rw [hcd]; decide)]
      rw [← Multiset.coe_eq_coe] at ih ⊢
      simp only [List.map_cons, ← Multiset.coe_add, ← Multiset.cons_coe,
        ← Multiset.singleton_add] at ih ⊢
      rw [← ih]
      abel
    | cat =>
      rw [fneg DType.datetime (by rw [hcd]; decide), fpos DType.cat hcd,
        fneg DType.string (by rw [hcd]; decide), fneg DType.float64 (by rw [hcd]; decide),
        fneg DType.int64 (by rw [hcd]; decide)]
      rw [← Multiset.coe_eq_coe] at ih ⊢
      simp only [List.map_cons, ← Multiset.coe_add, ← Multiset.cons_coe,
        ← Multiset.singleton_add] at ih ⊢
      rw [← ih]
      abel
    | string =>
      rw [fneg DType.datetime (by rw [hcd]; decide), fneg DType.cat (by rw [hcd]; decide),
        fpos DType.string hcd, fneg DType.float64 (by rw [hcd]; decide),
        fneg DType.int64 (by rw [hcd]; decide)]
      rw [← Multiset.coe_eq_coe] at ih ⊢
      simp only [List.map_cons, ← Multiset.coe_add, ← Multiset.cons_coe,
        ← Multiset.singleton_add] at ih ⊢
      rw [← ih]
      abel
    | float64 =>
      rw [fneg DType.datetime (by rw [hcd]; decide), fneg DType.cat (by rw [hcd]; decide),
        fneg DType.string (by rw [hcd]; decide), fpos DType.float64 hcd,
        fneg DType.int64 (by rw [hcd]; decide)]
      rw [← Multiset.coe_eq_coe] at ih ⊢
      simp only [List.map_cons, ← Multiset.coe_add, ← Multiset.cons_coe,
        ← Multiset.singleton_add] at ih ⊢
      rw [← ih]
      abel
    | int64 =>
      rw [fneg DType.datetime (by rw [hcd]; decide), fneg DType.cat (by rw [hcd]; decide),
        fneg DType.string (by rw [hcd]; decide), fneg DType.float64 (by rw [hcd]; decide),
        fpos DType.int64 hcd]
      rw [← Multiset.coe_eq_coe] at ih ⊢
      simp only [List.map_cons, ← Multiset.coe_add, ← Multiset.cons_coe,
        ← Multiset.singleton_add] at ih ⊢
      rw [← ih]
      abel

/-- When every column is classified, the canonical column order is a
permutation of the column names. -/
theorem dcsOrder_perm (t : Table) (hcl : ∀ c ∈ t.data.cols, classifiableDType c.dtype) :
    (dcsOrder t).Perm t.data.colNames := by
  unfold dcsOrder Table.datetimeColumns Table.categoricalColumns Table.numericColumns
  unfold Frame.colsOfDType
  refine List.Perm.trans ?_ (classified_names_perm t.data.cols hcl)
  exact List.Perm.append
    (List.Perm.append (sortStrings_perm _) (sortStrings_perm _)) (sortStrings_perm _)

/-- The boolean duplicate check agrees with Nodup. -/
theorem hasDupNames_eq_false_iff : ∀ (xs : List String), hasDupNames xs = false ↔ xs.Nodup
  | [] => by simp [hasDupNames]
  | x :: xs => by
    unfold hasDupNames
    rw [Bool.or_eq_false_iff, List.nodup_cons, ← hasDupNames_eq_false_iff xs]
    simp

/-- A column getCol finds is named by the requested name. -/
theorem getCol_name (f : Frame) (n : String) (c : Column) (h : f.getCol n = some c) :
    c.name = n := by
  unfold Frame.getCol at h
  have := List.find?_some h
  simpa using this

/-- Looking up all the column names of a frame with unique names returns its
columns. -/
theorem filterMap_getCol_colNames (f : Frame) (hnodup : (f.cols.map Column.name).Nodup) :
    f.colNames.filterMap f.getCol = f.cols := by
  unfold Frame.colNames
  rw [List.filterMap_map]
  have hfix : ∀ (l : List Column), (∀ c ∈ l, f.getCol c.name = some c) →
      l.filterMap (fun c => f.getCol c.name) = l := by
    intro l
    induction l with
    | nil => intro; rfl
    | cons c rest ih =>
      intro hp
      rw [List.filterMap_cons]
      rw [hp c (List.mem_cons_self c rest)]
      rw [ih (fun c2 h2 => hp c2 (List.mem_cons_of_mem c h2))]
  exact hfix f.cols (fun c hc => getCol_of_mem_nodup f hnodup c hc)

/-- The names of the columns a lookup list selects are the requested names,
provided every lookup succeeds. -/
theorem map_name_filterMap_getCol (f : Frame) :
    ∀ (names : List String), (∀ n ∈ names, (f.getCol n).isSome) →
      (names.filterMap f.getCol).map Column.name = names
  | [], _ => rfl
  | n :: rest, hp => by
    cases hg : f.getCol n with
    | none =>
      have := hp n (List.mem_cons_self n rest)
      rw [hg] at this
      cases this
    | some c =>
      rw [List.filterMap_cons, hg, List.map_cons, getCol_name f n c hg,
        map_name_filterMap_getCol f rest (fun m hm => hp m (List.mem_cons_of_mem n hm))]

/-- Selecting a permutation of the column names of a frame with unique names
succeeds and permutes the columns, with the requested names as output
names. -/
theorem select_perm (f : Frame) (names : List String)
    (hperm : names.Perm f.colNames) (hnodup : (f.cols.map Column.name).Nodup) :
    ∃ g, f.select names = Except.ok g ∧ g.cols.Perm f.cols ∧ g.colNames = names := by
  have hmemcol : ∀ n ∈ names, (f.getCol n).isSome := by
    intro n hn
    have hn2 : n ∈ f.colNames := hperm.subset hn
    unfold Frame.colNames at hn2
    rw [List.mem_map] at hn2
    obtain ⟨c, hc, hcn⟩ := hn2
    rw [← hcn, getCol_of_mem_nodup f hnodup c hc]
    rfl
  have hnodup2 : names.Nodup := (List.Perm.nodup_iff hperm).mpr hnodup
  refine ⟨⟨names.filterMap f.getCol⟩, ?_, ?_, ?_⟩
  · unfold Frame.select
    rw [if_pos (by rw [List.all_eq_true]; exact fun n hn => hmemcol n hn)]
    rw [if_neg (by simp [(hasDupNames_eq_false_iff names).mpr hnodup2])]
  · have hp2 := List.Perm.filterMap f.getCol hperm
    rw [filterMap_getCol_colNames f hnodup] at hp2
    exact hp2
  · exact map_name_filterMap_getCol f names hmemcol

/-- C4 amended: on every non-empty table with unique column names all of
whose columns are classified (date-time, categorical or text, or Int64 or
Float64 numeric), the column-sorting transform succeeds and returns a pure
permutation of the input columns - no column added, dropped or modified -
ordered as the sorted date-time names, then sorted categorical and text
names, then sorted numeric names. -/
theorem sorting_pure_reorder_of_classified (t : Table)
    (hne : t.data.isEmpty = false)
    (hnodup : (t.data.cols.map Column.name).Nodup)
    (hcl : ∀ c ∈ t.data.cols, classifiableDType c.dtype) :
    ∃ t2, callT defaultColumnSortingApply t = Except.ok t2 ∧
      t2.data.cols.Perm t.data.cols ∧
      t2.data.colNames = dcsOrder t := by
  obtain ⟨g, hsel, hpermcols, hnames⟩ :=
    select_perm t.data (dcsOrder t) (dcsOrder_perm t hcl) hnodup
  refine ⟨{ t with data := g }, ?_, hpermcols, hnames⟩
  simp only [callT, hne, Bool.false_eq_true, if_false, defaultColumnSortingApply, hsel]

/-- A mixed fixture: an Int64, a String and a Datetime column, deliberately
not in canonical order. -/
def c4Mixed : Table :=
  { name := "t", source := TableSource.csv, data := ⟨[
      ⟨"b", DType.int64, [Val.int 1]⟩,
      ⟨"a", DType.string, [Val.str "s"]⟩,
      ⟨"d", DType.datetime, [Val.dt ⟨2023, 1, 1, 0, 0, 0⟩]⟩]⟩ }

/-- The column-sorting output on the mixed fixture: datetime, then text, then
numeric. -/
def c4MixedOut : Table :=
  { name := "t", source := TableSource.csv, data := ⟨[
      ⟨"d", DType.datetime, [Val.dt ⟨2023, 1, 1, 0, 0, 0⟩]⟩,
      ⟨"a", DType.string, [Val.str "s"]⟩,
      ⟨"b", DType.int64, [Val.int 1]⟩]⟩ }

/-- Witness: the amended C4 theorem applied at the mixed fixture. -/
theorem sorting_pure_reorder_witness :
    callT defaultColumnSortingApply c4Mixed = Except.ok c4MixedOut ∧
    c4MixedOut.data.cols.Perm c4Mixed.data.cols ∧
    c4MixedOut.data.colNames = dcsOrder c4Mixed := by
  obtain ⟨t2, h1, h2, h3⟩ :=
    sorting_pure_reorder_of_classified c4Mixed (by decide) (by decide) (by decide)
  have hconc : callT defaultColumnSortingApply c4Mixed = Except.ok c4MixedOut := by decide
  have ht2 : t2 = c4MixedOut := Except.ok.inj (h1.symm.trans hconc)
  exact ⟨hconc, ht2 ▸ h2, ht2 ▸ h3⟩

/-- Strict fraction order in terms of the denoted rationals. -/
theorem frac_lt_iff_toRat (a b : Frac) (ha : 0 < a.den) (hb : 0 < b.den) :
    a.lt b = true ↔ a.toRat < b.toRat := by
  unfold Frac.lt Frac.toRat
  rw [decide_eq_true_iff, div_lt_div_iff₀ (by exact_mod_cast ha) (by exact_mod_cast hb)]
  constructor
  · intro h
    exact_mod_cast h
  · intro h
    exact_mod_cast h

/-- The min fold of the eviction helper returns a member whose timestamp is
at most every cached timestamp (first-minimal, as Python min over dict
iteration order). -/
theorem minFold_spec :
    ∀ (es : List (String × Table × String × Frac)) (e : String × Table × String × Frac),
      (∀ x ∈ e :: es, 0 < x.2.2.2.den) →
      (es.foldl (fun best p => if p.2.2.2.lt best.2.2.2 then p else best) e) ∈ e :: es ∧
      ∀ x ∈ e :: es,
        (es.foldl (fun best p => if p.2.2.2.lt best.2.2.2 then p else best) e).2.2.2.toRat
          ≤ x.2.2.2.toRat
  | [], e, _ => by
    constructor
    · exact List.mem_cons_self e []
    · intro x hx
      rcases List.mem_cons.mp hx with rfl | h0
      · exact le_refl _
      · cases h0
  | p :: ps, e, hd => by
    simp only [List.foldl_cons]
    have hde : 0 < e.2.2.2.den := hd e (by simp)
    have hdp : 0 < p.2.2.2.den := hd p (by simp)
    have he2mem : (if p.2.2.2.lt e.2.2.2 then p else e) = p ∨
        (if p.2.2.2.lt e.2.2.2 then p else e) = e := by
      split
      · exact Or.inl rfl
      · exact Or.inr rfl
    have hd2 : ∀ x ∈ (if p.2.2.2.lt e.2.2.2 then p else e) :: ps, 0 < x.2.2.2.den := by
      intro x hx
      rcases List.mem_cons.mp hx with rfl | h0
      · rcases he2mem with h | h <;> rw [h]
        · exact hdp
        · exact hde
      · exact hd x (List.mem_cons_of_mem e (List.mem_cons_of_mem p h0))
    obtain ⟨hmem, hmin⟩ := minFold_spec ps (if p.2.2.2.lt e.2.2.2 then p else e) hd2
    have he2le : (if p.2.2.2.lt e.2.2.2 then p else e).2.2.2.toRat ≤ e.2.2.2.toRat ∧
        (if p.2.2.2.lt e.2.2.2 then p else e).2.2.2.toRat ≤ p.2.2.2.toRat := by
      split
      · rename_i hlt
        exact ⟨le_of_lt ((frac_lt_iff_toRat _ _ hdp hde).mp hlt), le_refl _⟩
      · rename_i hnlt
        refine ⟨le_refl _, le_of_not_lt (fun hq => hnlt ?_)⟩
        exact (frac_lt_iff_toRat _ _ hdp hde).mpr hq
    constructor
    · rcases List.mem_cons.mp hmem with hfe | hfm
      · rw [hfe]
        rcases he2mem with h | h <;> rw [h]
        · exact List.mem_cons_of_mem e (List.mem_cons_self p ps)
        · exact List.mem_cons_self e (p :: ps)
      · exact List.mem_cons_of_mem e (List.mem_cons_of_mem p hfm)
    · intro x hx
      rcases List.mem_cons.mp hx with rfl | hx2
      · exact le_trans (hmin _ (List.mem_cons_self _ ps)) he2le.1
      · rcases List.mem_cons.mp hx2 with rfl | hx3
        · exact le_trans (hmin _ (List.mem_cons_self _ ps)) he2le.2
        · exact hmin x (List.mem_cons_of_mem _ hx3)

/-- The min fold returns a member of the cache. -/
theorem minFold_mem :
    ∀ (es : List (String × Table × String × Frac)) (e : String × Table × String × Frac),
      (es.foldl (fun best p => if p.2.2.2.lt best.2.2.2 then p else best) e) ∈ e :: es
  | [], e => List.mem_cons_self e []
  | p :: ps, e => by
    simp only [List.foldl_cons]
    have hmem := minFold_mem ps (if p.2.2.2.lt e.2.2.2 then p else e)
    rcases List.mem_cons.mp hmem with hfe | hfm
    · rw [hfe]
      split
      · exact List.mem_cons_of_mem e (List.mem_cons_self p ps)
      · exact List.mem_cons_self e (p :: ps)
    · exact List.mem_cons_of_mem e (List.mem_cons_of_mem p hfm)

/-- Dict assignment grows the cache by at most one entry. -/
theorem updateAssoc_length {α β : Type} [DecidableEq α] (xs : List (α × β)) (k : α) (v : β) :
    (updateAssoc xs k v).length ≤ xs.length + 1 := by
  unfold updateAssoc
  split
  · simp
  · simp

/-- Evicting from a non-empty cache removes exactly one entry. -/
theorem evictOldest_length (c : TableCache) (hne : c.cache ≠ []) :
    c.evictOldest.cache.length + 1 = c.cache.length := by
  unfold TableCache.evictOldest argminTimestamp
  cases hc : c.cache with
  | nil => exact absurd hc hne
  | cons x xs =>
    dsimp only
    have hmem := minFold_mem xs x
    have hlen := List.length_eraseP_of_mem hmem
      (p := fun p => p.1 = (xs.foldl (fun best p => if p.2.2.2.lt best.2.2.2 then p else best) x).1)
      (by simp)
    simp only [hlen, List.length_cons]
    omega

/-- Eviction does not change the capacity. -/
theorem evictOldest_maxSize (c : TableCache) : c.evictOldest.maxSize = c.maxSize := by
  unfold TableCache.evictOldest
  split
  · rfl
  · rfl

/-- One put keeps a cache with positive capacity within its capacity and
preserves the capacity. -/
theorem put_length_bound (c : TableCache) (tbl : Table) (key? : Option String)
    (fk : String) (now : Frac) (h1 : 1 ≤ c.maxSize) (h2 : c.cache.length ≤ c.maxSize) :
    (TableCache.put c tbl key? fk now).1.cache.length ≤ c.maxSize ∧
    (TableCache.put c tbl key? fk now).1.maxSize = c.maxSize := by
  unfold TableCache.put
  by_cases hcap : c.cache.length ≥ c.maxSize
  · rw [if_pos hcap]
    dsimp only
    refine ⟨?_, evictOldest_maxSize c⟩
    have hlen : c.cache.length = c.maxSize := le_antisymm h2 hcap
    have hne : c.cache ≠ [] := by
      intro h0
      rw [h0] at hlen
      simp at hlen
      omega
    have hev := evictOldest_length c hne
    have hupd := updateAssoc_length c.evictOldest.cache (key?.getD fk) (tbl, key?.getD fk, now)
    omega
  · rw [if_neg hcap]
    dsimp only
    refine ⟨?_, rfl⟩
    have hupd := updateAssoc_length c.cache (key?.getD fk) (tbl, key?.getD fk, now)
    omega

/-- A sequence of puts keeps a positive-capacity cache within capacity. -/
theorem runPuts_bound :
    ∀ (rs : List PutReq) (c : TableCache), 1 ≤ c.maxSize → c.cache.length ≤ c.maxSize →
      (runPuts c rs).cache.length ≤ (runPuts c rs).maxSize ∧
      (runPuts c rs).maxSize = c.maxSize
  | [], c => fun _ h2 => ⟨h2, rfl⟩
  | r :: rs, c => by
    intro h1 h2
    have hstep := put_length_bound c r.tbl r.key? r.freshKey r.now h1 h2
    have hrest := runPuts_bound rs (TableCache.put c r.tbl r.key? r.freshKey r.now).1
      (by omega) (by omega)
    unfold runPuts at hrest ⊢
    rw [List.foldl_cons]
    exact ⟨hrest.1, by rw [hrest.2, hstep.2]⟩

/-- Every hex character is a hex digit. -/
theorem hexChar_mem (n : Nat) : hexChar n ∈ "0123456789abcdef".toList := by
  unfold hexChar
  have h16 : n % 16 < 16 := Nat.mod_lt n (by norm_num)
  have hall : ∀ m, m < 16 → "0123456789abcdef".toList.getD m '0' ∈ "0123456789abcdef".toList := by
    decide
  exact hall (n % 16) h16

/-- The token of n entropy bytes has 2n characters. -/
theorem tokenHex_length : ∀ (bytes : List Nat), (tokenHex bytes).length = 2 * bytes.length
  | [] => rfl
  | b :: bs => by
    unfold tokenHex
    rw [String.length_append, tokenHex_length bs]
    have hb : (byteToHexStr b).length = 2 := rfl
    rw [hb, List.length_cons]
    ring

/-- Every character of the token is a hex digit. -/
theorem tokenHex_chars :
    ∀ (bytes : List Nat), ∀ ch ∈ (tokenHex bytes).toList, ch ∈ "0123456789abcdef".toList
  | [] => by
    intro ch h
    cases h
  | b :: bs => by
    intro ch h
    have hsplit : (byteToHexStr b ++ tokenHex bs).toList
        = (byteToHexStr b).toList ++ (tokenHex bs).toList := rfl
    unfold tokenHex at h
    rw [hsplit, List.mem_append] at h
    rcases h with h | h
    · have hb : (byteToHexStr b).toList = [hexChar (b / 16 % 16), hexChar (b % 16)] := rfl
      rw [hb] at h
      rcases List.mem_cons.mp h with rfl | h2
      · exact hexChar_mem _
      · rcases List.mem_cons.mp h2 with rfl | h3
        · exact hexChar_mem _
        · cases h3
    · exact tokenHex_chars bs ch h

set_option maxHeartbeats 1600000 in
/-- C9 amended: for a cache with max size at least one, (1) any sequence of
puts starting within capacity stays within capacity; (2) a put invoked while
the cache holds exactly max size entries first evicts exactly one entry,
one whose insertion timestamp is at most every cached timestamp, before
inserting the new entry; and (3) a generated key is the table name, a colon
and twelve hexadecimal characters. -/
theorem cache_bounded_evicts_oldest_key_format :
    (∀ (c : TableCache) (rs : List PutReq), 1 ≤ c.maxSize → c.cache.length ≤ c.maxSize →
      (runPuts c rs).cache.length ≤ (runPuts c rs).maxSize ∧
      (runPuts c rs).maxSize = c.maxSize) ∧
    (∀ (c : TableCache) (tbl : Table) (key? : Option String) (fk : String) (now : Frac),
      1 ≤ c.maxSize → c.cache.length = c.maxSize →
      (∀ x ∈ c.cache, 0 < x.2.2.2.den) →
      ∃ e ∈ c.cache, (∀ x ∈ c.cache, e.2.2.2.toRat ≤ x.2.2.2.toRat) ∧
        c.evictOldest.cache = c.cache.eraseP (fun p => p.1 = e.1) ∧
        c.evictOldest.cache.length + 1 = c.cache.length ∧
        (TableCache.put c tbl key? fk now).1.cache
          = updateAssoc c.evictOldest.cache (key?.getD fk) (tbl, key?.getD fk, now)) ∧
    (∀ (t : Table) (entropy : List Nat), entropy.length = 6 →
      generateKey t entropy = t.name ++ ":" ++ tokenHex entropy ∧
      (tokenHex entropy).length = 12 ∧
      ∀ ch ∈ (tokenHex entropy).toList, ch ∈ "0123456789abcdef".toList) := by
  refine ⟨fun c rs h1 h2 => runPuts_bound rs c h1 h2, ?_, ?_⟩
  · intro c tbl key? fk now h1 h2 hd
    cases hc : c.cache with
    | nil =>
      rw [hc] at h2
      simp at h2
      omega
    | cons x xs =>
      have hd2 : ∀ y ∈ x :: xs, 0 < y.2.2.2.den := by
        intro y hy
        exact hd y (by rw [hc]; exact hy)
      obtain ⟨hmem, hmin⟩ := minFold_spec xs x hd2
      refine ⟨xs.foldl (fun best p => if p.2.2.2.lt best.2.2.2 then p else best) x,
        hmem, hmin, ?_, ?_, ?_⟩
      · unfold TableCache.evictOldest argminTimestamp
        rw [hc]
      · rw [← hc]
        exact evictOldest_length c (by rw [hc]; simp)
      · unfold TableCache.put
        rw [if_pos (by omega)]
  · intro t entropy hlen
    refine ⟨rfl, ?_, tokenHex_chars entropy⟩
    rw [tokenHex_length entropy, hlen]

/-- A full one-slot cache holding one entry with timestamp one. -/
def c9Full : TableCache :=
  { cache := [("t:000000000000", boolTable, "t:000000000000", ⟨1, 1⟩)], maxSize := 1 }

/-- An empty two-slot cache. -/
def c9Start : TableCache :=
  { cache := [], maxSize := 2 }

/-- Three put requests against the two-slot cache. -/
def c9Reqs : List PutReq :=
  [⟨boolTable, none, "t:000000000001", ⟨1, 1⟩⟩,
   ⟨boolTable, none, "t:000000000002", ⟨2, 1⟩⟩,
   ⟨boolTable, none, "t:000000000003", ⟨3, 1⟩⟩]

/-- Witness: the amended C9 theorem applied at an empty two-slot cache with
three puts, a full one-slot cache, and six concrete entropy bytes. -/
theorem cache_bounded_evicts_oldest_key_format_witness :
    ((runPuts c9Start c9Reqs).cache.length ≤ (runPuts c9Start c9Reqs).maxSize ∧
      (runPuts c9Start c9Reqs).maxSize = c9Start.maxSize) ∧
    (∃ e ∈ c9Full.cache, (∀ x ∈ c9Full.cache, e.2.2.2.toRat ≤ x.2.2.2.toRat) ∧
      c9Full.evictOldest.cache = c9Full.cache.eraseP (fun p => p.1 = e.1) ∧
      c9Full.evictOldest.cache.length + 1 = c9Full.cache.length ∧
      (TableCache.put c9Full boolTable none "t:0000000000aa" ⟨2, 1⟩).1.cache
        = updateAssoc c9Full.evictOldest.cache "t:0000000000aa"
            (boolTable, "t:0000000000aa", ⟨2, 1⟩)) ∧
    (generateKey boolTable [0, 255, 16, 1, 2, 3]
        = boolTable.name ++ ":" ++ tokenHex [0, 255, 16, 1, 2, 3] ∧
      (tokenHex [0, 255, 16, 1, 2, 3]).length = 12 ∧
      ∀ ch ∈ (tokenHex [0, 255, 16, 1, 2, 3]).toList, ch ∈ "0123456789abcdef".toList) :=
  ⟨cache_bounded_evicts_oldest_key_format.1 c9Start c9Reqs (by decide) (by decide),
   cache_bounded_evicts_oldest_key_format.2.1 c9Full boolTable none "t:0000000000aa" ⟨2, 1⟩
     (by decide) (by decide) (by decide),
   cache_bounded_evicts_oldest_key_format.2.2 boolTable [0, 255, 16, 1, 2, 3] (by decide)⟩

end DataBrowser
